import Mathlib

/-!
Shallow embedding of the XMSS / XMSS-MT C library (RFC 8391 implementation)
and proofs about it.

Conventions:
* Bytes are `Nat` values (always < 256 where produced by the code); byte
  strings are `List Nat`.
* A hash-function "node" is the `List Nat` of its bytes.
* The five domain-separated hash primitives (F, H, H_msg, PRF, PRF_keygen,
  plus the PRF-with-raw-index variant) are the sole backend dispatch point of
  the source; algorithm-level definitions are parameterised by an abstract
  bundle `HashFns` of these primitives, exactly as the algorithm code uses
  them through `hash_iface.h`.
* C struct fields become Lean structure fields; fixed-size C arrays inside
  state structs become total functions from the index, where the bytes beyond
  a written region (which the C code keeps zeroed) are represented by the
  empty list / zero values.
-/

namespace XMSS

/-! ## utils.c : big-endian encoding, constant-time compare -/

/-- `ull_to_bytes` from utils.c: big-endian encoding of `val` into `len`
bytes, truncating the high bits when `val` does not fit. -/
def ullToBytes : Nat → Nat → List Nat
  | 0, _ => []
  | len + 1, val => ullToBytes len (val / 256) ++ [val % 256]

/-- `bytes_to_ull` from utils.c: big-endian decoding; `val = (val << 8) | b`,
which for byte values `b < 256` is `256 * val + b`. -/
def bytesToUll (l : List Nat) : Nat :=
  l.foldl (fun acc b => 256 * acc + b) 0

/-- `ct_memcmp` from utils.c: ORs together the XORs of the first `len` byte
pairs; zero exactly when those bytes agree. -/
def ctMemcmp (a b : List Nat) (len : Nat) : Nat :=
  (List.range len).foldl (fun diff i => diff ||| ((a.getD i 0) ^^^ (b.getD i 0))) 0

@[simp] theorem ullToBytes_length (len val : Nat) : (ullToBytes len val).length = len := by
  induction len generalizing val with
  | zero => rfl
  | succ n ih => simp [ullToBytes, ih]

theorem bytesToUll_append_singleton (l : List Nat) (b : Nat) :
    bytesToUll (l ++ [b]) = 256 * bytesToUll l + b := by
  simp [bytesToUll]

theorem bytesToUll_ullToBytes (len val : Nat) :
    bytesToUll (ullToBytes len val) = val % 256 ^ len := by
  induction len generalizing val with
  | zero => simp [ullToBytes, bytesToUll, Nat.mod_one]
  | succ n ih =>
      rw [ullToBytes, bytesToUll_append_singleton, ih]
      have hp : (256 : Nat) ^ (n + 1) = 256 * 256 ^ n := by ring
      rw [hp, Nat.mod_mul]
      ring

theorem bytesToUll_ullToBytes_of_lt {len val : Nat} (h : val < 256 ^ len) :
    bytesToUll (ullToBytes len val) = val := by
  rw [bytesToUll_ullToBytes, Nat.mod_eq_of_lt h]

theorem foldl_or_eq_zero (f : Nat → Nat) (l : List Nat) (h : ∀ i ∈ l, f i = 0) :
    l.foldl (fun acc i => acc ||| f i) 0 = 0 := by
  induction l with
  | nil => rfl
  | cons x xs ih =>
      simp only [List.foldl_cons]
      rw [h x (by simp)]
      simpa using ih (fun i hi => h i (by simp [hi]))

/-- `ct_memcmp` returns 0 on equal inputs (the direction completeness needs). -/
theorem ctMemcmp_self (a b : List Nat) (len : Nat) (h : ∀ i < len, a.getD i 0 = b.getD i 0) :
    ctMemcmp a b len = 0 := by
  unfold ctMemcmp
  apply foldl_or_eq_zero
  intro i hi
  rw [h i (List.mem_range.mp hi)]
  simp

/-! ## address.c : the 32-byte ADRS structure (8 big-endian 32-bit words) -/

/-- `xmss_adrs_t` from types.h: 8 words, each a `uint32_t`. -/
structure Adrs where
  w0 : Nat
  w1 : Nat
  w2 : Nat
  w3 : Nat
  w4 : Nat
  w5 : Nat
  w6 : Nat
  w7 : Nat
deriving DecidableEq, Repr

/-- The all-zero address (`memset(&adrs, 0, sizeof(adrs))`). -/
def Adrs.zero : Adrs := ⟨0, 0, 0, 0, 0, 0, 0, 0⟩

def u32 (v : Nat) : Nat := v % 2 ^ 32

def Adrs.setLayer (a : Adrs) (v : Nat) : Adrs := { a with w0 := u32 v }

/-- `xmss_adrs_set_tree`: 64-bit tree index into words 1 (high) and 2 (low). -/
def Adrs.setTree (a : Adrs) (v : Nat) : Adrs :=
  { a with w1 := u32 (v >>> 32), w2 := u32 (v % 2 ^ 32) }

/-- `xmss_adrs_set_type`: sets word 3 and zeros the type-specific words 4-7
(RFC 8391 domain separation). -/
def Adrs.setType (a : Adrs) (v : Nat) : Adrs :=
  { a with w3 := u32 v, w4 := 0, w5 := 0, w6 := 0, w7 := 0 }

def Adrs.setOts (a : Adrs) (v : Nat) : Adrs := { a with w4 := u32 v }

def Adrs.setChain (a : Adrs) (v : Nat) : Adrs := { a with w5 := u32 v }

def Adrs.setHash (a : Adrs) (v : Nat) : Adrs := { a with w6 := u32 v }

def Adrs.setLtree (a : Adrs) (v : Nat) : Adrs := { a with w4 := u32 v }

def Adrs.setTreeHeight (a : Adrs) (v : Nat) : Adrs := { a with w5 := u32 v }

def Adrs.setTreeIndex (a : Adrs) (v : Nat) : Adrs := { a with w6 := u32 v }

def Adrs.setKeyAndMask (a : Adrs) (v : Nat) : Adrs := { a with w7 := u32 v }

/-- One 32-bit word as 4 big-endian bytes. -/
def be32 (v : Nat) : List Nat :=
  [(v >>> 24) % 256, (v >>> 16) % 256, (v >>> 8) % 256, v % 256]

/-- `xmss_adrs_to_bytes`: the 32-byte big-endian serialisation. -/
def Adrs.toBytes (a : Adrs) : List Nat :=
  be32 a.w0 ++ be32 a.w1 ++ be32 a.w2 ++ be32 a.w3 ++
  be32 a.w4 ++ be32 a.w5 ++ be32 a.w6 ++ be32 a.w7

@[simp] theorem Adrs.toBytes_length (a : Adrs) : a.toBytes.length = 32 := by
  simp [Adrs.toBytes, be32]

/-- ADRS type constants from types.h. -/
def TYPE_OTS : Nat := 0
def TYPE_LTREE : Nat := 1
def TYPE_HASH : Nat := 2

/-! ## params.h / params.c : parameter sets -/

def FUNC_SHA2 : Nat := 0
def FUNC_SHAKE128 : Nat := 1
def FUNC_SHAKE256 : Nat := 2

def XMSS_MAX_WOTS_LEN : Nat := 131
def XMSS_MAX_H : Nat := 20

/-- `xmss_params`: all derived parameters of one XMSS / XMSS-MT instance. -/
structure Params where
  oid : Nat
  func : Nat
  n : Nat
  w : Nat
  log2w : Nat
  len1 : Nat
  len2 : Nat
  len : Nat
  h : Nat
  treeHeight : Nat
  d : Nat
  padLen : Nat
  idxBytes : Nat
  idxMax : Nat
  sigBytes : Nat
  pkBytes : Nat
  skBytes : Nat
deriving DecidableEq, Repr

/-- `ceil_div` from params.c. -/
def ceilDiv (a b : Nat) : Nat := (a + b - 1) / b

/-- Fuel-driven version of `floor_log2` from params.c
(`while (x > 1) do x >>= 1; r++`). -/
def floorLog2Aux : Nat → Nat → Nat
  | 0, _ => 0
  | fuel + 1, x => if 1 < x then floorLog2Aux fuel (x / 2) + 1 else 0

def floorLog2 (x : Nat) : Nat := floorLog2Aux x x

/-- A raw OID-table row: (oid, func, n, w, h, d). -/
structure OidRow where
  oid : Nat
  func : Nat
  n : Nat
  w : Nat
  h : Nat
  d : Nat
deriving DecidableEq, Repr

/-- `derive_params` from params.c, from a table row to the full parameter
structure; `none` mirrors the `-1` failure returns. -/
def deriveParams (e : OidRow) : Option Params :=
  let log2w := if e.w = 4 then some 2 else if e.w = 16 then some 4 else none
  match log2w with
  | none => none
  | some lw =>
    let len1 := ceilDiv (8 * e.n) lw
    let len2 := floorLog2 (len1 * (e.w - 1)) / lw + 1
    let len := len1 + len2
    if len > XMSS_MAX_WOTS_LEN then none
    else
      let th := e.h / e.d
      if th > XMSS_MAX_H then none
      else
        let idxBytes := if e.d = 1 then 4 else ceilDiv e.h 8
        some
          { oid := e.oid, func := e.func, n := e.n, w := e.w, log2w := lw
            len1 := len1, len2 := len2, len := len
            h := e.h, treeHeight := th, d := e.d
            padLen := e.n
            idxBytes := idxBytes
            idxMax := 2 ^ e.h - 1
            sigBytes := idxBytes + e.n + e.d * len * e.n + e.h * e.n
            pkBytes := 4 + 2 * e.n
            skBytes := 4 + idxBytes + 4 * e.n }

/-- The 12 XMSS rows of the static OID table in params.c. -/
def oidTableXmss : List OidRow :=
  [ ⟨0x00000001, FUNC_SHA2, 32, 16, 10, 1⟩
  , ⟨0x00000002, FUNC_SHA2, 32, 16, 16, 1⟩
  , ⟨0x00000003, FUNC_SHA2, 32, 16, 20, 1⟩
  , ⟨0x00000004, FUNC_SHA2, 64, 16, 10, 1⟩
  , ⟨0x00000005, FUNC_SHA2, 64, 16, 16, 1⟩
  , ⟨0x00000006, FUNC_SHA2, 64, 16, 20, 1⟩
  , ⟨0x00000007, FUNC_SHAKE128, 32, 16, 10, 1⟩
  , ⟨0x00000008, FUNC_SHAKE128, 32, 16, 16, 1⟩
  , ⟨0x00000009, FUNC_SHAKE128, 32, 16, 20, 1⟩
  , ⟨0x0000000A, FUNC_SHAKE256, 64, 16, 10, 1⟩
  , ⟨0x0000000B, FUNC_SHAKE256, 64, 16, 16, 1⟩
  , ⟨0x0000000C, FUNC_SHAKE256, 64, 16, 20, 1⟩ ]

/-- The 32 XMSS-MT rows of the static OID table in params.c
(internally namespaced OIDs `0x01000001 ..`). -/
def oidTableXmssMt : List OidRow :=
  [ ⟨0x01000001, FUNC_SHA2, 32, 16, 20, 2⟩
  , ⟨0x01000002, FUNC_SHA2, 32, 16, 20, 4⟩
  , ⟨0x01000003, FUNC_SHA2, 32, 16, 40, 2⟩
  , ⟨0x01000004, FUNC_SHA2, 32, 16, 40, 4⟩
  , ⟨0x01000005, FUNC_SHA2, 32, 16, 40, 8⟩
  , ⟨0x01000006, FUNC_SHA2, 32, 16, 60, 3⟩
  , ⟨0x01000007, FUNC_SHA2, 32, 16, 60, 6⟩
  , ⟨0x01000008, FUNC_SHA2, 32, 16, 60, 12⟩
  , ⟨0x01000009, FUNC_SHA2, 64, 16, 20, 2⟩
  , ⟨0x0100000A, FUNC_SHA2, 64, 16, 20, 4⟩
  , ⟨0x0100000B, FUNC_SHA2, 64, 16, 40, 2⟩
  , ⟨0x0100000C, FUNC_SHA2, 64, 16, 40, 4⟩
  , ⟨0x0100000D, FUNC_SHA2, 64, 16, 40, 8⟩
  , ⟨0x0100000E, FUNC_SHA2, 64, 16, 60, 3⟩
  , ⟨0x0100000F, FUNC_SHA2, 64, 16, 60, 6⟩
  , ⟨0x01000010, FUNC_SHA2, 64, 16, 60, 12⟩
  , ⟨0x01000011, FUNC_SHAKE128, 32, 16, 20, 2⟩
  , ⟨0x01000012, FUNC_SHAKE128, 32, 16, 20, 4⟩
  , ⟨0x01000013, FUNC_SHAKE128, 32, 16, 40, 2⟩
  , ⟨0x01000014, FUNC_SHAKE128, 32, 16, 40, 4⟩
  , ⟨0x01000015, FUNC_SHAKE128, 32, 16, 40, 8⟩
  , ⟨0x01000016, FUNC_SHAKE128, 32, 16, 60, 3⟩
  , ⟨0x01000017, FUNC_SHAKE128, 32, 16, 60, 6⟩
  , ⟨0x01000018, FUNC_SHAKE128, 32, 16, 60, 12⟩
  , ⟨0x01000019, FUNC_SHAKE256, 64, 16, 20, 2⟩
  , ⟨0x0100001A, FUNC_SHAKE256, 64, 16, 20, 4⟩
  , ⟨0x0100001B, FUNC_SHAKE256, 64, 16, 40, 2⟩
  , ⟨0x0100001C, FUNC_SHAKE256, 64, 16, 40, 4⟩
  , ⟨0x0100001D, FUNC_SHAKE256, 64, 16, 40, 8⟩
  , ⟨0x0100001E, FUNC_SHAKE256, 64, 16, 60, 3⟩
  , ⟨0x0100001F, FUNC_SHAKE256, 64, 16, 60, 6⟩
  , ⟨0x01000020, FUNC_SHAKE256, 64, 16, 60, 12⟩ ]

/-- `xmss_params_from_oid`: lookup among the `d = 1` rows, then derive. -/
def xmssParamsFromOid (oid : Nat) : Option Params :=
  match (oidTableXmss ++ oidTableXmssMt).find? (fun e => e.oid = oid && e.d = 1) with
  | none => none
  | some e => deriveParams e

def OID_XMSSMT_PREFIX : Nat := 0x01000000

/-- `xmssmt_params_from_oid`: RFC OIDs `1..0x20` are namespaced with the
`0x01000000` prefix before the lookup among the `d > 1` rows. -/
def xmssmtParamsFromOid (oid : Nat) : Option Params :=
  let internalOid := if 0 < oid && oid ≤ 0x20 then oid ||| OID_XMSSMT_PREFIX else oid
  match (oidTableXmss ++ oidTableXmssMt).find? (fun e => e.oid = internalOid && e.d > 1) with
  | none => none
  | some e => deriveParams e

/-- Error codes from xmss.h. -/
def XMSS_OK : Int := 0
def XMSS_ERR_PARAMS : Int := -1
def XMSS_ERR_ENTROPY : Int := -2
def XMSS_ERR_VERIFY : Int := -3
def XMSS_ERR_EXHAUSTED : Int := -4

/-! ## hash/xmss_hash.c : byte streams fed to the core hashes

`xmss_H_msg` and `xmss_PRF` each absorb one well-defined byte stream into the
backend hash selected by `(func, n)`.  The streams are embedded here exactly
as the source builds them; the backend itself stays an abstract function
`coreHash` of the absorbed stream. -/

/-- The domain-separator block the source writes with
`for (i = 0; i < count - 1; i++) buf[off++] = 0x00; buf[off++] = dom;`. -/
def domBlock (dom count : Nat) : List Nat := List.replicate (count - 1) 0 ++ [dom]

/-- `toByte(x, len)` of RFC 8391 (the spec's notation) is exactly the
big-endian encoding `ullToBytes`. -/
theorem ullToBytes_zero_val (len : Nat) : ullToBytes len 0 = List.replicate len 0 := by
  induction len with
  | zero => rfl
  | succ n ih =>
      rw [ullToBytes, Nat.zero_div, ih]
      simp [List.replicate_succ']

theorem ullToBytes_small (dom len : Nat) (h : dom < 256) (hl : 1 ≤ len) :
    ullToBytes len dom = domBlock dom len := by
  obtain ⟨m, rfl⟩ : ∃ m, len = m + 1 := ⟨len - 1, by omega⟩
  rw [ullToBytes, Nat.div_eq_of_lt h, Nat.mod_eq_of_lt h, ullToBytes_zero_val]
  simp [domBlock]

/-- The byte stream absorbed by `xmss_H_msg` (src/src/hash/xmss_hash.c):
domain block of `n` bytes for SHA-2 but `32` bytes for SHAKE, then `r`,
`root`, the index as 32 big-endian bytes (`ull_to_bytes(idx_bytes, 32, idx)`),
then the message. -/
def hmsgInput (p : Params) (r root : List Nat) (idx : Nat) (msg : List Nat) : List Nat :=
  (if p.func = FUNC_SHA2 then domBlock 2 p.n else domBlock 2 32)
    ++ r ++ root ++ ullToBytes 32 idx ++ msg

/-- The byte stream the spec sentence for `H_msg` describes:
`toByte(2,n) ++ r ++ root ++ toByte(idx, n) ++ msg`. -/
def hmsgInputSpec (p : Params) (r root : List Nat) (idx : Nat) (msg : List Nat) : List Nat :=
  ullToBytes p.n 2 ++ r ++ root ++ ullToBytes p.n idx ++ msg

/-- `xmss_H_msg` as the abstract backend applied to its absorbed stream. -/
def xmssHmsg (coreHash : List Nat → List Nat) (p : Params)
    (r root : List Nat) (idx : Nat) (msg : List Nat) : List Nat :=
  coreHash (hmsgInput p r root idx msg)

/-- The byte stream hashed by `xmss_PRF` (SHA-2 via `sha2_hash_prf`, SHAKE
inline): domain block of `n` bytes for SHA-2 but `32` bytes for SHAKE, then
the key and the 32-byte address serialisation. -/
def prfInput (p : Params) (key : List Nat) (a : Adrs) : List Nat :=
  (if p.func = FUNC_SHA2 then domBlock 3 p.n else domBlock 3 32)
    ++ key ++ a.toBytes

/-- The byte stream the spec sentence for `PRF` describes:
`toByte(3,n) ++ key ++ ADRS_bytes`. -/
def prfInputSpec (p : Params) (key : List Nat) (a : Adrs) : List Nat :=
  ullToBytes p.n 3 ++ key ++ a.toBytes

/-- `xmss_PRF` as the abstract backend applied to its absorbed stream. -/
def xmssPrf (coreHash : List Nat → List Nat) (p : Params)
    (key : List Nat) (a : Adrs) : List Nat :=
  coreHash (prfInput p key a)

/-- The parameter set XMSS-SHA2_10_512 (OID 4, n = 64), used as the
counterexample input of C4. -/
def pSha512 : Params :=
  { oid := 4, func := FUNC_SHA2, n := 64, w := 16, log2w := 4
    len1 := 128, len2 := 3, len := 131, h := 10, treeHeight := 10, d := 1
    padLen := 64, idxBytes := 4, idxMax := 1023
    sigBytes := 4 + 64 + 131 * 64 + 10 * 64, pkBytes := 4 + 2 * 64
    skBytes := 4 + 4 + 4 * 64 }

/-- The parameter set XMSS-SHAKE_10_512 (OID 0x0A, n = 64, SHAKE256), used
as the counterexample input of C5. -/
def pShake512 : Params :=
  { oid := 0x0A, func := FUNC_SHAKE256, n := 64, w := 16, log2w := 4
    len1 := 128, len2 := 3, len := 131, h := 10, treeHeight := 10, d := 1
    padLen := 64, idxBytes := 4, idxMax := 1023
    sigBytes := 4 + 64 + 131 * 64 + 10 * 64, pkBytes := 4 + 2 * 64
    skBytes := 4 + 4 + 4 * 64 }

/-! ### Claims C4 and C5: the H_msg and PRF input streams -/

set_option maxRecDepth 4000 in
/-- C4 (counterexample): for XMSS-SHA2_10_512 (n = 64) the byte stream
absorbed by `xmss_H_msg` is not `toByte(2,n) ++ r ++ root ++ toByte(idx,n)
++ msg`: the index is encoded as 32 bytes, not n = 64. -/
theorem hmsg_input_c4_counterexample :
    xmssParamsFromOid 4 = some pSha512 ∧
    hmsgInput pSha512 (List.replicate 64 0) (List.replicate 64 0) 0 [] ≠
      hmsgInputSpec pSha512 (List.replicate 64 0) (List.replicate 64 0) 0 [] := by
  exact ⟨by decide, by decide⟩

/-- C4 (amended): for every parameter set the byte stream absorbed by
`xmss_H_msg` is `dom ++ r ++ root ++ toByte(idx, 32) ++ msg`, where the
domain block `dom` is `toByte(2, n)` for SHA-2 but `toByte(2, 32)` for the
SHAKE backends, and the index is always encoded as 32 big-endian bytes; this
coincides with the spec's `toByte(2,n) ... toByte(idx,n)` formula exactly in
the n = 32 case. -/
theorem xmss_Hmsg_stream_characterization :
    (∀ (ch : List Nat → List Nat) (p : Params) (r root : List Nat) (idx : Nat)
        (msg : List Nat), 1 ≤ p.n →
        xmssHmsg ch p r root idx msg =
          ch (ullToBytes (if p.func = FUNC_SHA2 then p.n else 32) 2
              ++ r ++ root ++ ullToBytes 32 idx ++ msg)) ∧
    (∀ (ch : List Nat → List Nat) (p : Params) (r root : List Nat) (idx : Nat)
        (msg : List Nat), p.n = 32 →
        xmssHmsg ch p r root idx msg = ch (hmsgInputSpec p r root idx msg)) := by
  constructor
  · intro ch p r root idx msg hn
    unfold xmssHmsg hmsgInput
    by_cases hf : p.func = FUNC_SHA2
    · rw [if_pos hf, if_pos hf, ullToBytes_small 2 p.n (by norm_num) hn]
    · rw [if_neg hf, if_neg hf, ullToBytes_small 2 32 (by norm_num) (by norm_num)]
  · intro ch p r root idx msg hn
    unfold xmssHmsg hmsgInput hmsgInputSpec
    rw [hn]
    by_cases hf : p.func = FUNC_SHA2
    · rw [if_pos hf, ullToBytes_small 2 32 (by norm_num) (by norm_num)]
    · rw [if_neg hf, ullToBytes_small 2 32 (by norm_num) (by norm_num)]

/-- Witness for the amended C4 theorem at a concrete input. -/
theorem xmss_Hmsg_stream_characterization_witness :
    (1 ≤ pSha512.n) ∧
    xmssHmsg id pSha512 [] [] 0 [] =
      id (ullToBytes (if pSha512.func = FUNC_SHA2 then pSha512.n else 32) 2
          ++ [] ++ [] ++ ullToBytes 32 0 ++ []) :=
  ⟨by decide, xmss_Hmsg_stream_characterization.1 id pSha512 [] [] 0 [] (by decide)⟩

set_option maxRecDepth 4000 in
/-- C5 (counterexample): for XMSS-SHAKE_10_512 (SHAKE256, n = 64) the byte
stream hashed by `xmss_PRF` is not `toByte(3,n) ++ key ++ ADRS_bytes`: the
SHAKE branch writes a 32-byte domain block, not n = 64 bytes. -/
theorem prf_input_c5_counterexample :
    xmssParamsFromOid 10 = some pShake512 ∧
    prfInput pShake512 (List.replicate 64 0) Adrs.zero ≠
      prfInputSpec pShake512 (List.replicate 64 0) Adrs.zero := by
  exact ⟨by decide, by decide⟩

/-- C5 (amended): for every parameter set the byte stream hashed by
`xmss_PRF` is `dom ++ key ++ ADRS_bytes`, where the domain block `dom` is
`toByte(3, n)` for SHA-2 but `toByte(3, 32)` for the SHAKE backends; this
coincides with the spec's `toByte(3,n)` formula for every SHA-2 set and for
the n = 32 SHAKE sets. -/
theorem xmss_PRF_stream_characterization :
    (∀ (ch : List Nat → List Nat) (p : Params) (key : List Nat) (a : Adrs),
        1 ≤ p.n →
        xmssPrf ch p key a =
          ch (ullToBytes (if p.func = FUNC_SHA2 then p.n else 32) 3
              ++ key ++ a.toBytes)) ∧
    (∀ (ch : List Nat → List Nat) (p : Params) (key : List Nat) (a : Adrs),
        1 ≤ p.n → (p.func = FUNC_SHA2 ∨ p.n = 32) →
        xmssPrf ch p key a = ch (prfInputSpec p key a)) := by
  constructor
  · intro ch p key a hn
    unfold xmssPrf prfInput
    by_cases hf : p.func = FUNC_SHA2
    · rw [if_pos hf, if_pos hf, ullToBytes_small 3 p.n (by norm_num) hn]
    · rw [if_neg hf, if_neg hf, ullToBytes_small 3 32 (by norm_num) (by norm_num)]
  · intro ch p key a hn hor
    unfold xmssPrf prfInput prfInputSpec
    rcases hor with hf | h32
    · rw [if_pos hf, ullToBytes_small 3 p.n (by norm_num) hn]
    · rw [h32]
      by_cases hf : p.func = FUNC_SHA2
      · rw [if_pos hf, ullToBytes_small 3 32 (by norm_num) (by norm_num)]
      · rw [if_neg hf, ullToBytes_small 3 32 (by norm_num) (by norm_num)]

/-- Witness for the amended C5 theorem at a concrete input. -/
theorem xmss_PRF_stream_characterization_witness :
    (1 ≤ pSha512.n) ∧
    xmssPrf id pSha512 [] Adrs.zero =
      id (ullToBytes (if pSha512.func = FUNC_SHA2 then pSha512.n else 32) 3
          ++ [] ++ Adrs.zero.toBytes) :=
  ⟨by decide, xmss_PRF_stream_characterization.1 id pSha512 [] Adrs.zero (by decide)⟩

/-! ## The abstract hash-primitive bundle

Algorithm code uses the five primitives exclusively (hash_iface.h); every
algorithm-level definition below is parameterised by this bundle. -/

/-- The hash primitives of hash_iface.h as abstract functions:
`F key adrs m`, `H key adrs l r`, `Hmsg r root idx msg`,
`PRFkeygen sk_seed adrs`, `PRFidx sk_prf idx`. -/
structure HashFns where
  F : List Nat → Adrs → List Nat → List Nat
  H : List Nat → Adrs → List Nat → List Nat → List Nat
  Hmsg : List Nat → List Nat → Nat → List Nat → List Nat
  PRFkeygen : List Nat → Adrs → List Nat
  PRFidx : List Nat → Nat → List Nat

/-- A helper for reading a map over `List.range`. -/
theorem mapRange_getD {α : Type} (f : Nat → α) (n i : Nat) (d : α) :
    ((List.range n).map f).getD i d = if i < n then f i else d := by
  by_cases h : i < n
  · rw [if_pos h]
    rw [List.getD_eq_getElem?_getD]
    rw [List.getElem?_map]
    simp [List.getElem?_range h]
  · rw [if_neg h]
    apply List.getD_eq_default
    simpa using h

/-! ## wots.c : WOTS+ -/

/-- `base_w` from wots.c, with the bit-buffer state `(inOff, total, bits)`
made explicit; the first argument is the remaining output count. -/
def baseWAux (p : Params) (input : List Nat) : Nat → Nat → Nat → Nat → List Nat
  | 0, _, _, _ => []
  | outRem + 1, inOff, total, bits =>
    if bits = 0 then
      let t := input.getD inOff 0
      let b := 8 - p.log2w
      ((t >>> b) &&& (p.w - 1)) :: baseWAux p input outRem (inOff + 1) t b
    else
      let b := bits - p.log2w
      ((total >>> b) &&& (p.w - 1)) :: baseWAux p input outRem inOff total b

/-- `base_w(out, outlen, in)`. -/
def baseW (p : Params) (outlen : Nat) (input : List Nat) : List Nat :=
  baseWAux p input outlen 0 0 0

theorem baseWAux_le (p : Params) (input : List Nat) (outRem inOff total bits : Nat) :
    ∀ v ∈ baseWAux p input outRem inOff total bits, v ≤ p.w - 1 := by
  induction outRem generalizing inOff total bits with
  | zero => intro v hv; simp [baseWAux] at hv
  | succ m ih =>
      intro v hv
      rw [baseWAux] at hv
      by_cases hb : bits = 0
      · rw [if_pos hb] at hv
        rcases List.mem_cons.mp hv with h | h
        · rw [h]; exact Nat.and_le_right
        · exact ih _ _ _ v h
      · rw [if_neg hb] at hv
        rcases List.mem_cons.mp hv with h | h
        · rw [h]; exact Nat.and_le_right
        · exact ih _ _ _ v h

@[simp] theorem baseWAux_length (p : Params) (input : List Nat)
    (outRem inOff total bits : Nat) :
    (baseWAux p input outRem inOff total bits).length = outRem := by
  induction outRem generalizing inOff total bits with
  | zero => rfl
  | succ m ih =>
      rw [baseWAux]
      by_cases hb : bits = 0
      · rw [if_pos hb]; simp [ih]
      · rw [if_neg hb]; simp [ih]

/-- `wots_checksum` from wots.c: the checksum of the `len1` message digits,
left-aligned to `len2 * log2w` bits, encoded big-endian and base-w expanded
into `len2` further digits. -/
def wotsChecksum (p : Params) (msgW : List Nat) : List Nat :=
  let csum := msgW.foldl (fun acc v => acc + (p.w - 1 - v)) 0
  let csumBits := p.len2 * p.log2w
  let csumBytesLen := (csumBits + 7) / 8
  let csumShifted := csum <<< ((8 - csumBits % 8) % 8)
  baseW p p.len2 (ullToBytes csumBytesLen csumShifted)

/-- The `lengths` array of wots.c signing/verification: message digits
followed by checksum digits. -/
def chainLengths (p : Params) (msg : List Nat) : List Nat :=
  let msgW := baseW p p.len1 msg
  msgW ++ wotsChecksum p msgW

theorem chainLengths_mem_le (p : Params) (msg : List Nat) :
    ∀ v ∈ chainLengths p msg, v ≤ p.w - 1 := by
  intro v hv
  unfold chainLengths wotsChecksum baseW at hv
  rcases List.mem_append.mp hv with hm | hm
  · exact baseWAux_le p msg _ _ _ _ v hm
  · exact baseWAux_le p _ _ _ _ _ v hm

theorem chainLengths_getD_le (p : Params) (msg : List Nat) (i : Nat) :
    (chainLengths p msg).getD i 0 ≤ p.w - 1 := by
  by_cases h : i < (chainLengths p msg).length
  · rw [List.getD_eq_getElem _ _ h]
    exact chainLengths_mem_le p msg _ (List.getElem_mem h)
  · rw [List.getD_eq_default _ _ (Nat.le_of_not_lt h)]
    exact Nat.zero_le _

/-- `gen_chain` loop body from wots.c: fuel-counted iteration of F with the
absolute chain position `i`, stopping early at `i = w` as the source's
`i < start + steps && i < p->w` condition does. -/
def genChainGo (p : Params) (hf : HashFns) (seed : List Nat) :
    Adrs → List Nat → Nat → Nat → List Nat
  | _, x, _, 0 => x
  | a, x, i, steps + 1 =>
    if i < p.w then
      let a1 := (a.setHash i).setKeyAndMask 0
      genChainGo p hf seed a1 (hf.F seed a1 x) (i + 1) steps
    else x

/-- `gen_chain(out, in, start, steps, seed, adrs)`. -/
def genChain (p : Params) (hf : HashFns) (seed : List Nat) (a : Adrs)
    (x : List Nat) (start steps : Nat) : List Nat :=
  genChainGo p hf seed a x start steps

theorem genChainGo_set_collapse (p : Params) (hf : HashFns) (seed : List Nat)
    (a : Adrs) (v : Nat) (x : List Nat) (i steps : Nat) :
    genChainGo p hf seed ((a.setHash v).setKeyAndMask 0) x i steps =
      genChainGo p hf seed a x i steps := by
  cases steps with
  | zero => rfl
  | succ s =>
      simp only [genChainGo]
      by_cases hi : i < p.w
      · simp only [if_pos hi]
        have ha : (((a.setHash v).setKeyAndMask 0).setHash i).setKeyAndMask 0 =
            (a.setHash i).setKeyAndMask 0 := by
          simp [Adrs.setHash, Adrs.setKeyAndMask]
        rw [ha]
      · simp only [if_neg hi]

/-- Chain composition: running the chain `s1` steps from position `i` and
then `s2` steps from position `i + s1` is running it `s1 + s2` steps,
provided the chain never hits the `i < w` stop during the first part. -/
theorem genChainGo_append (p : Params) (hf : HashFns) (seed : List Nat) (a : Adrs)
    (x : List Nat) (i s1 s2 : Nat) (h : i + s1 ≤ p.w) :
    genChainGo p hf seed a x i (s1 + s2) =
      genChainGo p hf seed a (genChainGo p hf seed a x i s1) (i + s1) s2 := by
  induction s1 generalizing x i with
  | zero => simp [genChainGo]
  | succ m ih =>
      have hi : i < p.w := by omega
      have hstep : ∀ y fuel, genChainGo p hf seed a y i (fuel + 1) =
          genChainGo p hf seed a
            (hf.F seed ((a.setHash i).setKeyAndMask 0) y) (i + 1) fuel := by
        intro y fuel
        rw [genChainGo, if_pos hi]
        exact genChainGo_set_collapse p hf seed a i _ _ _
      have hadd : m + 1 + s2 = (m + s2) + 1 := by omega
      rw [hadd, hstep x (m + s2), hstep x m, ih _ _ (by omega)]
      have : i + (m + 1) = i + 1 + m := by omega
      rw [this]

/-- `wots_expand_seed`: `sk[i] = PRF_keygen(SK_SEED, ADRS[chain=i, hash=0,
km=0])`. -/
def wotsExpandSeed (p : Params) (hf : HashFns) (skSeed : List Nat) (a : Adrs) :
    List (List Nat) :=
  (List.range p.len).map
    (fun i => hf.PRFkeygen skSeed (((a.setChain i).setHash 0).setKeyAndMask 0))

/-- `wots_gen_pk`: expand the seed, then run every chain the full `w - 1`
steps.  Note the source re-applies `set_type(OTS)` to its copy of the
address, which zeros words 4-7 (including the OTS index). -/
def wotsGenPk (p : Params) (hf : HashFns) (skSeed seed : List Nat) (adrs : Adrs) :
    List (List Nat) :=
  let sks := wotsExpandSeed p hf skSeed (adrs.setType TYPE_OTS)
  (List.range p.len).map
    (fun i => genChain p hf seed ((adrs.setType TYPE_OTS).setChain i)
        (sks.getD i []) 0 (p.w - 1))

/-- `wots_sign`: chains run `lengths[i]` steps from the expanded seed. -/
def wotsSign (p : Params) (hf : HashFns) (msg skSeed seed : List Nat)
    (adrs : Adrs) : List (List Nat) :=
  let lengths := chainLengths p msg
  let sks := wotsExpandSeed p hf skSeed (adrs.setType TYPE_OTS)
  (List.range p.len).map
    (fun i => genChain p hf seed ((adrs.setType TYPE_OTS).setChain i)
        (sks.getD i []) 0 (lengths.getD i 0))

/-- `wots_pk_from_sig`: chains resumed from `lengths[i]` to `w - 1`. -/
def wotsPkFromSig (p : Params) (hf : HashFns) (sig : List (List Nat))
    (msg seed : List Nat) (adrs : Adrs) : List (List Nat) :=
  let lengths := chainLengths p msg
  (List.range p.len).map
    (fun i => genChain p hf seed ((adrs.setType TYPE_OTS).setChain i)
        (sig.getD i []) (lengths.getD i 0) (p.w - 1 - lengths.getD i 0))

/-- WOTS+ public-key recovery from an honest signature reproduces
`wots_gen_pk`. -/
theorem wotsPkFromSig_wotsSign (p : Params) (hf : HashFns)
    (msg skSeed seed : List Nat) (adrs : Adrs) (hw : 0 < p.w) :
    wotsPkFromSig p hf (wotsSign p hf msg skSeed seed adrs) msg seed adrs =
      wotsGenPk p hf skSeed seed adrs := by
  unfold wotsPkFromSig wotsSign wotsGenPk
  apply List.map_congr_left
  intro i hi
  have hi' : i < p.len := List.mem_range.mp hi
  rw [mapRange_getD, if_pos hi']
  set l := (chainLengths p msg).getD i 0 with hl
  have hle : l ≤ p.w - 1 := chainLengths_getD_le p msg i
  unfold genChain
  have hcomp := genChainGo_append p hf seed ((adrs.setType TYPE_OTS).setChain i)
    ((wotsExpandSeed p hf skSeed (adrs.setType TYPE_OTS)).getD i [])
    0 l (p.w - 1 - l) (by omega)
  rw [Nat.zero_add] at hcomp
  rw [← hcomp]
  congr 1
  omega

/-! ## ltree.c : the L-tree reduction (in-place on the WOTS+ pk buffer) -/

/-- One level of `l_tree`: merge pairs into the first `len / 2` positions,
promote an odd trailing element, keep the remaining positions untouched. -/
def lTreeLevel (p : Params) (hf : HashFns) (seed : List Nat) (a : Adrs)
    (buf : List (List Nat)) (len height : Nat) : List (List Nat) :=
  let half := len / 2
  let merged := (List.range half).map
    (fun i => hf.H seed ((a.setTreeHeight height).setTreeIndex i)
        (buf.getD (2 * i) []) (buf.getD (2 * i + 1) []))
  let buf1 := merged ++ buf.drop half
  if len % 2 = 1 then buf1.set half (buf.getD (len - 1) []) else buf1

/-- The `while (len > 1)` loop of `l_tree`, fuel-counted. -/
def lTreeGo (p : Params) (hf : HashFns) (seed : List Nat) (a : Adrs) :
    Nat → List (List Nat) → Nat → Nat → List (List Nat)
  | 0, buf, _, _ => buf
  | fuel + 1, buf, len, height =>
    if 1 < len then
      lTreeGo p hf seed a fuel (lTreeLevel p hf seed a buf len height)
        ((len + 1) / 2) (height + 1)
    else buf

/-- `l_tree(root, pk, seed, adrs)`: returns the root (first element of the
final buffer) together with the final state of the caller's `pk` buffer. -/
def lTree (p : Params) (hf : HashFns) (seed : List Nat) (a : Adrs)
    (buf : List (List Nat)) : List Nat × List (List Nat) :=
  let final := lTreeGo p hf seed a p.len buf p.len 0
  (final.getD 0 [], final)

/-- The root computed by `l_tree`. -/
def lTreeRoot (p : Params) (hf : HashFns) (seed : List Nat) (a : Adrs)
    (buf : List (List Nat)) : List Nat :=
  (lTree p hf seed a buf).1

/-! ## treehash.c : the iterative stack-based treehash

The reference object is the recursive Merkle node function `mnode`; the
iterative machine of the source is proved to compute it. -/

/-- The recursive Merkle node over an abstract leaf `L` and merge `HM`
(`HM k b left right` merges the two height-`k` children of the height-`k+1`
node with index `b`). -/
def mnode (L : Nat → List Nat) (HM : Nat → Nat → List Nat → List Nat → List Nat) :
    Nat → Nat → List Nat
  | 0, b => L b
  | k + 1, b => HM k b (mnode L HM k (2 * b)) (mnode L HM k (2 * b + 1))

/-- The leaf computation shared by treehash.c (`treehash` loop body) and
bds.c (`gen_leaf`): WOTS+ public key at OTS address `idx`, reduced by
`l_tree` at L-tree address `idx`. -/
def leafCalc (p : Params) (hf : HashFns) (skSeed seed : List Nat) (base : Adrs)
    (idx : Nat) : List Nat :=
  lTreeRoot p hf seed ((base.setType TYPE_LTREE).setLtree idx)
    (wotsGenPk p hf skSeed seed ((base.setType TYPE_OTS).setOts idx))

/-- The inner-node hash of treehash.c / bds.c / compute_root: `xmss_H` at a
HASH-type address with `tree_height = k` (the children's height) and
`tree_index = b` (the parent's index). -/
def mergeNode (hf : HashFns) (seed : List Nat) (base : Adrs) (k b : Nat)
    (l r : List Nat) : List Nat :=
  hf.H seed (((base.setType TYPE_HASH).setTreeHeight k).setTreeIndex b) l r

/-- The Merkle node of the tree addressed by `base`. -/
def treeNode (p : Params) (hf : HashFns) (skSeed seed : List Nat) (base : Adrs) :
    Nat → Nat → List Nat :=
  mnode (leafCalc p hf skSeed seed base) (mergeNode hf seed base)

/-- The merge-while loop of `treehash` in treehash.c.  The stack is a list
with the most recent entry (the right sibling) first; `node` at height `nh`
is the entry being pushed, `idx` the leaf being processed, `s` the start
leaf of the call.  The merged tree index is
`(s >> (nh+1)) + ((idx - s) >> (nh+1))` as in the source. -/
def thMergeLoop (hf : HashFns) (seed : List Nat) (base : Adrs) (s idx : Nat) :
    List (List Nat × Nat) → List Nat → Nat → List (List Nat × Nat)
  | [], node, nh => [(node, nh)]
  | (below, belowH) :: rest, node, nh =>
    if belowH = nh then
      thMergeLoop hf seed base s idx rest
        (mergeNode hf seed base nh ((s >>> (nh + 1)) + ((idx - s) >>> (nh + 1)))
          below node)
        (nh + 1)
    else (node, nh) :: (below, belowH) :: rest

/-- One iteration of the `treehash` leaf loop: compute the leaf at `idx`,
push it at height 0 and merge. -/
def thStep (p : Params) (hf : HashFns) (skSeed seed : List Nat) (base : Adrs)
    (s : Nat) (st : List (List Nat × Nat)) (idx : Nat) : List (List Nat × Nat) :=
  thMergeLoop hf seed base s idx st (leafCalc p hf skSeed seed base idx) 0

/-- The leaf loop of `treehash` over `count` leaves starting at `lo`. -/
def thProcess (p : Params) (hf : HashFns) (skSeed seed : List Nat) (base : Adrs)
    (s lo count : Nat) (st : List (List Nat × Nat)) : List (List Nat × Nat) :=
  (List.range count).foldl (fun acc j => thStep p hf skSeed seed base s acc (lo + j)) st

/-- `treehash(root, sk_seed, seed, s, t, adrs)` from treehash.c: iterate the
leaf loop from the empty stack and read the root from the bottom stack slot
(`stack.node[0]`). -/
def treehash (p : Params) (hf : HashFns) (skSeed seed : List Nat)
    (s t : Nat) (base : Adrs) : List Nat :=
  ((thProcess p hf skSeed seed base s s t []).getLastD ([], 0)).1

theorem thProcess_add (p : Params) (hf : HashFns) (skSeed seed : List Nat)
    (base : Adrs) (s lo a b : Nat) (st : List (List Nat × Nat)) :
    thProcess p hf skSeed seed base s lo (a + b) st =
      thProcess p hf skSeed seed base s (lo + a) b
        (thProcess p hf skSeed seed base s lo a st) := by
  unfold thProcess
  rw [List.range_add, List.foldl_append, List.foldl_map]
  congr 1
  funext acc j
  congr 1
  omega

theorem thMergeLoop_push (hf : HashFns) (seed : List Nat) (base : Adrs)
    (s idx : Nat) (st : List (List Nat × Nat)) (node : List Nat) (nh : Nat)
    (h : ∀ e ∈ st, e.2 ≠ nh) :
    thMergeLoop hf seed base s idx st node nh = (node, nh) :: st := by
  cases st with
  | nil => rfl
  | cons top rest =>
      obtain ⟨below, belowH⟩ := top
      rw [thMergeLoop, if_neg (h (below, belowH) (by simp))]

/-- The central treehash lemma: processing one aligned block of `2 ^ k`
leaves pushes the corresponding Merkle node (then merges it into the
stack), provided every entry already on the stack sits at height at least
`k`.  `s` is the (2^K-aligned) start leaf of the whole call. -/
theorem thProcess_block (p : Params) (hf : HashFns) (skSeed seed : List Nat)
    (base : Adrs) (s K : Nat) (hs : 2 ^ K ∣ s) :
    ∀ k, k ≤ K → ∀ r st, (∀ e ∈ st, k ≤ e.2) →
      thProcess p hf skSeed seed base s (s + r * 2 ^ k) (2 ^ k) st =
        thMergeLoop hf seed base s (s + r * 2 ^ k + (2 ^ k - 1)) st
          (treeNode p hf skSeed seed base k (s / 2 ^ k + r)) k := by
  intro k
  induction k with
  | zero =>
      intro _ r st _
      have h1 : List.range 1 = [0] := rfl
      simp only [pow_zero, mul_one, Nat.add_zero, Nat.div_one]
      unfold thProcess
      rw [h1]
      simp only [List.foldl_cons, List.foldl_nil, Nat.add_zero]
      rfl
  | succ k ih =>
      intro hK r st hst
      have hk : k ≤ K := by omega
      have hp2 : (0 : Nat) < 2 ^ k := pow_pos (by norm_num) k
      have hp2s : (0 : Nat) < 2 ^ (k + 1) := pow_pos (by norm_num) (k + 1)
      have hsplit : (2 : Nat) ^ (k + 1) = 2 ^ k + 2 ^ k := by ring
      have hdvd : (2 : Nat) ^ (k + 1) ∣ s := dvd_trans (pow_dvd_pow 2 hK) hs
      obtain ⟨m, hm⟩ := hdvd
      have hsdiv1 : s / 2 ^ (k + 1) = m := by
        rw [hm]; exact Nat.mul_div_cancel_left m hp2s
      have hsdiv0 : s / 2 ^ k = 2 * m := by
        rw [hm, pow_succ]
        rw [show (2 : Nat) ^ k * 2 * m = (2 * m) * 2 ^ k by ring]
        exact Nat.mul_div_cancel _ hp2
      have e1 : s + r * 2 ^ (k + 1) = s + (2 * r) * 2 ^ k := by rw [pow_succ]; ring
      have e2 : s + (2 * r) * 2 ^ k + 2 ^ k = s + (2 * r + 1) * 2 ^ k := by ring
      have hstep : thProcess p hf skSeed seed base s (s + r * 2 ^ (k + 1)) (2 ^ (k + 1)) st =
          thProcess p hf skSeed seed base s (s + (2 * r + 1) * 2 ^ k) (2 ^ k)
            (thProcess p hf skSeed seed base s (s + (2 * r) * 2 ^ k) (2 ^ k) st) := by
        calc thProcess p hf skSeed seed base s (s + r * 2 ^ (k + 1)) (2 ^ (k + 1)) st
            = thProcess p hf skSeed seed base s (s + (2 * r) * 2 ^ k) (2 ^ k + 2 ^ k) st := by
              rw [e1, hsplit]
          _ = thProcess p hf skSeed seed base s (s + (2 * r) * 2 ^ k + 2 ^ k) (2 ^ k)
                (thProcess p hf skSeed seed base s (s + (2 * r) * 2 ^ k) (2 ^ k) st) :=
              thProcess_add p hf skSeed seed base s _ _ _ st
          _ = thProcess p hf skSeed seed base s (s + (2 * r + 1) * 2 ^ k) (2 ^ k)
                (thProcess p hf skSeed seed base s (s + (2 * r) * 2 ^ k) (2 ^ k) st) := by
              rw [e2]
      rw [hstep, ih hk (2 * r) st (fun e he => Nat.le_of_succ_le (hst e he))]
      rw [thMergeLoop_push hf seed base s _ st _ k
        (fun e he => by have := hst e he; omega)]
      rw [ih hk (2 * r + 1) ((treeNode p hf skSeed seed base k (s / 2 ^ k + 2 * r), k) :: st)
        (fun e he => by
          rcases List.mem_cons.mp he with h | h
          · rw [h]
          · exact Nat.le_of_succ_le (hst e h))]
      rw [thMergeLoop, if_pos rfl]
      have hidx : s + (2 * r + 1) * 2 ^ k + (2 ^ k - 1) =
          s + r * 2 ^ (k + 1) + (2 ^ (k + 1) - 1) := by
        rw [pow_succ]
        have expand1 : (2 * r + 1) * 2 ^ k = 2 * (r * 2 ^ k) + 2 ^ k := by ring
        have expand2 : r * (2 ^ k * 2) = 2 * (r * 2 ^ k) := by ring
        omega
      rw [hidx]
      have haddr : (s >>> (k + 1)) +
          ((s + r * 2 ^ (k + 1) + (2 ^ (k + 1) - 1) - s) >>> (k + 1)) =
          s / 2 ^ (k + 1) + r := by
        rw [Nat.shiftRight_eq_div_pow, Nat.shiftRight_eq_div_pow]
        have hsub : s + r * 2 ^ (k + 1) + (2 ^ (k + 1) - 1) - s =
            (2 ^ (k + 1) - 1) + r * 2 ^ (k + 1) := by
          rw [add_assoc, Nat.add_sub_cancel_left, add_comm]
        rw [hsub, Nat.add_mul_div_right _ _ hp2s,
          Nat.div_eq_of_lt (Nat.sub_lt hp2s (by norm_num)), Nat.zero_add]
      rw [haddr]
      have hnode : mergeNode hf seed base k (s / 2 ^ (k + 1) + r)
            (treeNode p hf skSeed seed base k (s / 2 ^ k + 2 * r))
            (treeNode p hf skSeed seed base k (s / 2 ^ k + (2 * r + 1))) =
          treeNode p hf skSeed seed base (k + 1) (s / 2 ^ (k + 1) + r) := by
        show _ = mnode _ _ (k + 1) _
        rw [mnode]
        rw [show 2 * (s / 2 ^ (k + 1) + r) = s / 2 ^ k + 2 * r by omega]
        rw [add_assoc]
        rfl
      rw [hnode]

/-- `treehash` over an aligned block of `2 ^ K` leaves computes the Merkle
node of height `K` over that block. -/
theorem treehash_root (p : Params) (hf : HashFns) (skSeed seed : List Nat)
    (base : Adrs) (s K : Nat) (hs : 2 ^ K ∣ s) :
    treehash p hf skSeed seed s (2 ^ K) base =
      treeNode p hf skSeed seed base K (s / 2 ^ K) := by
  unfold treehash
  have hb := thProcess_block p hf skSeed seed base s K hs K le_rfl 0 []
    (by intro e he; simp at he)
  simp only [Nat.zero_mul, Nat.add_zero] at hb
  rw [hb]
  rfl

theorem xor_one_of_even {b : Nat} (h : b % 2 = 0) : b ^^^ 1 = b + 1 := by
  obtain ⟨m, rfl⟩ : ∃ m, b = 2 * m := ⟨b / 2, by omega⟩
  have h2 : 2 * m = Nat.bit false m := by simp [Nat.bit]
  have h1 : (1 : Nat) = Nat.bit true 0 := rfl
  rw [h2, h1, Nat.xor_bit]
  simp [Nat.bit]

theorem xor_one_of_odd {b : Nat} (h : b % 2 = 1) : b ^^^ 1 = b - 1 := by
  obtain ⟨m, rfl⟩ : ∃ m, b = 2 * m + 1 := ⟨b / 2, by omega⟩
  have h2 : 2 * m + 1 = Nat.bit true m := by simp [Nat.bit]
  have h1 : (1 : Nat) = Nat.bit true 0 := rfl
  rw [h2, h1, Nat.xor_bit]
  simp [Nat.bit]

/-- The level loop of `compute_root` from treehash.c: at level `ℓ` the
address gets `tree_height = ℓ` and `tree_index = idx >> 1`; the current node
is hashed as left child when `idx` is even and as right child otherwise,
with the sibling read from `auth[ℓ]`; then `idx >>= 1`. -/
def computeRootGo (hf : HashFns) (seed : List Nat) (base : Adrs)
    (auth : List (List Nat)) : Nat → Nat → List Nat → Nat → List Nat
  | 0, _, buf, _ => buf
  | rem + 1, ℓ, buf, idx =>
    let buf1 :=
      if idx % 2 = 0 then mergeNode hf seed base ℓ (idx >>> 1) buf (auth.getD ℓ [])
      else mergeNode hf seed base ℓ (idx >>> 1) (auth.getD ℓ []) buf
    computeRootGo hf seed base auth rem (ℓ + 1) buf1 (idx >>> 1)

/-- `compute_root(root, leaf, leaf_idx, auth, seed, adrs)` from treehash.c:
the walk runs over `p.h` levels. -/
def computeRoot (p : Params) (hf : HashFns) (seed : List Nat) (base : Adrs)
    (leaf : List Nat) (leafIdx : Nat) (auth : List (List Nat)) : List Nat :=
  computeRootGo hf seed base auth p.h 0 leaf leafIdx

/-- Modelled from the spec: the `compute_root` used by the XMSS-MT build
(the impl/c copy of treehash.c is not in the source tree).  Per the spec it
"walks the auth path up `tree_height` levels"; it is the same level loop as
the XMSS `compute_root` with bound `p.treeHeight` instead of `p.h`. -/
def computeRootMT (p : Params) (hf : HashFns) (seed : List Nat) (base : Adrs)
    (leaf : List Nat) (leafIdx : Nat) (auth : List (List Nat)) : List Nat :=
  computeRootGo hf seed base auth p.treeHeight 0 leaf leafIdx

/-- The auth-path walk exactly as the spec words it: at step `j` the current
node is the left child if bit `j` of `idx` is 0 and the right child
otherwise, with the sibling read from `auth` at level `j`. -/
def authWalkSpecGo (hf : HashFns) (seed : List Nat) (base : Adrs)
    (auth : List (List Nat)) (idx : Nat) : Nat → Nat → List Nat → List Nat
  | 0, _, node => node
  | rem + 1, j, node =>
    let next :=
      if (idx >>> j) % 2 = 0 then
        mergeNode hf seed base j (idx >>> (j + 1)) node (auth.getD j [])
      else
        mergeNode hf seed base j (idx >>> (j + 1)) (auth.getD j []) node
    authWalkSpecGo hf seed base auth idx rem (j + 1) next

/-- The spec-worded walk over `t` levels. -/
def authWalkSpec (hf : HashFns) (seed : List Nat) (base : Adrs) (t : Nat)
    (leaf : List Nat) (idx : Nat) (auth : List (List Nat)) : List Nat :=
  authWalkSpecGo hf seed base auth idx t 0 leaf

/-- The source level loop is the spec-worded walk. -/
theorem computeRootGo_eq_authWalkSpecGo (hf : HashFns) (seed : List Nat)
    (base : Adrs) (auth : List (List Nat)) (idx : Nat) :
    ∀ rem j buf, computeRootGo hf seed base auth rem j buf (idx >>> j) =
      authWalkSpecGo hf seed base auth idx rem j buf := by
  intro rem
  induction rem with
  | zero => intro j buf; rfl
  | succ r ih =>
      intro j buf
      rw [computeRootGo, authWalkSpecGo]
      have hshift : (idx >>> j) >>> 1 = idx >>> (j + 1) := by
        rw [Nat.shiftRight_add]
      rw [hshift]
      exact ih (j + 1) _

/-- `compute_root` only reads the first `rem` auth nodes above `j`. -/
theorem computeRootGo_take (hf : HashFns) (seed : List Nat) (base : Adrs)
    (auth : List (List Nat)) :
    ∀ rem j buf idx,
      computeRootGo hf seed base (auth.take (j + rem)) rem j buf idx =
        computeRootGo hf seed base auth rem j buf idx := by
  intro rem
  induction rem with
  | zero => intro j buf idx; rfl
  | succ r ih =>
      intro j buf idx
      rw [computeRootGo, computeRootGo]
      have hget : (auth.take (j + (r + 1))).getD j [] = auth.getD j [] := by
        rw [List.getD_eq_getElem?_getD, List.getD_eq_getElem?_getD,
          List.getElem?_take_of_lt (by omega)]
      rw [hget]
      have hj : j + (r + 1) = (j + 1) + r := by omega
      rw [hj, ih (j + 1) _ _]

/-- The auth-path walk lemma: starting from the Merkle node of index `b` at
level `ℓ` and walking `rem` levels with correct siblings reaches the Merkle
node of index `b >> rem` at level `ℓ + rem`. -/
theorem computeRootGo_treeNode (p : Params) (hf : HashFns)
    (skSeed seed : List Nat) (base : Adrs) (auth : List (List Nat)) :
    ∀ rem ℓ b,
      (∀ j < rem, auth.getD (ℓ + j) [] =
        treeNode p hf skSeed seed base (ℓ + j) ((b >>> j) ^^^ 1)) →
      computeRootGo hf seed base auth rem ℓ
          (treeNode p hf skSeed seed base ℓ b) b =
        treeNode p hf skSeed seed base (ℓ + rem) (b >>> rem) := by
  intro rem
  induction rem with
  | zero =>
      intro ℓ b _
      simp only [Nat.add_zero, Nat.shiftRight_zero]
      rfl
  | succ r ih =>
      intro ℓ b hauth
      rw [computeRootGo]
      have hb2 : b >>> 1 = b / 2 := by omega
      have hauth0 : auth.getD ℓ [] = treeNode p hf skSeed seed base ℓ (b ^^^ 1) := by
        have := hauth 0 (by omega)
        simpa using this
      have hstep : (if b % 2 = 0
            then mergeNode hf seed base ℓ (b >>> 1)
              (treeNode p hf skSeed seed base ℓ b) (auth.getD ℓ [])
            else mergeNode hf seed base ℓ (b >>> 1)
              (auth.getD ℓ []) (treeNode p hf skSeed seed base ℓ b)) =
          treeNode p hf skSeed seed base (ℓ + 1) (b >>> 1) := by
        by_cases hpar : b % 2 = 0
        · rw [if_pos hpar, hauth0, xor_one_of_even hpar]
          show _ = mnode _ _ (ℓ + 1) _
          rw [mnode, hb2]
          rw [show 2 * (b / 2) = b by omega]
          rfl
        · have hpar1 : b % 2 = 1 := by omega
          rw [if_neg hpar, hauth0, xor_one_of_odd hpar1]
          show _ = mnode _ _ (ℓ + 1) _
          rw [mnode, hb2]
          rw [show 2 * (b / 2) = b - 1 by omega, show b - 1 + 1 = b by omega]
          rfl
      rw [hstep]
      have hrec := ih (ℓ + 1) (b >>> 1)
        (fun j hj => by
          have hj1 := hauth (j + 1) (by omega)
          rw [show ℓ + (j + 1) = ℓ + 1 + j by omega] at hj1
          rw [hj1]
          congr 2
          rw [← Nat.shiftRight_add]
          congr 1
          omega)
      rw [hrec]
      congr 1
      · omega
      · rw [← Nat.shiftRight_add]
        congr 1
        omega

/-- `treehash_auth_path` from treehash.c: level 0 computes the sibling leaf
directly; level `ℓ > 0` computes the `2 ^ ℓ`-leaf subtree rooted at
`((idx >> ℓ) ^ 1) << ℓ`. -/
def treehashAuthPath (p : Params) (hf : HashFns) (skSeed seed : List Nat)
    (idx : Nat) (base : Adrs) : List (List Nat) :=
  (List.range p.h).map (fun ℓ =>
    let sibling := ((idx >>> ℓ) ^^^ 1) <<< ℓ
    if ℓ = 0 then leafCalc p hf skSeed seed base sibling
    else treehash p hf skSeed seed sibling (2 ^ ℓ) base)

/-- Every auth-path node computed by `treehash_auth_path` is the Merkle
sibling node at its level. -/
theorem treehashAuthPath_getD (p : Params) (hf : HashFns)
    (skSeed seed : List Nat) (idx : Nat) (base : Adrs) (ℓ : Nat) (hℓ : ℓ < p.h) :
    (treehashAuthPath p hf skSeed seed idx base).getD ℓ [] =
      treeNode p hf skSeed seed base ℓ ((idx >>> ℓ) ^^^ 1) := by
  unfold treehashAuthPath
  rw [mapRange_getD, if_pos hℓ]
  by_cases h0 : ℓ = 0
  · subst h0
    simp only [if_pos rfl, Nat.shiftLeft_zero]
    rfl
  · rw [if_neg h0]
    have hdvd : 2 ^ ℓ ∣ ((idx >>> ℓ) ^^^ 1) <<< ℓ := by
      rw [Nat.shiftLeft_eq]
      exact Dvd.intro_left _ rfl
    rw [treehash_root p hf skSeed seed base _ ℓ hdvd]
    congr 1
    rw [Nat.shiftLeft_eq]
    exact Nat.mul_div_cancel _ (pow_pos (by norm_num) ℓ)

/-! ## xmss.c : XMSS keygen, sign, verify (byte level) -/

/-- A read of `len` bytes at offset `off` (pointer arithmetic on a caller
buffer). -/
def segment (l : List Nat) (off len : Nat) : List Nat := (l.drop off).take len

/-- Read `count` consecutive `n`-byte nodes starting at a byte pointer. -/
def sliceNodes (n : Nat) (bytes : List Nat) (count : Nat) : List (List Nat) :=
  (List.range count).map (fun j => segment bytes (j * n) n)

/-- The SK byte layout written by `xmss_keygen`:
`OID(4) | idx(idx_bytes) | SK_SEED(n) | SK_PRF(n) | root(n) | SEED(n)`. -/
def mkSk (p : Params) (idx : Nat) (skSeed skPrf root seed : List Nat) : List Nat :=
  ullToBytes 4 p.oid ++ ullToBytes p.idxBytes idx ++ skSeed ++ skPrf ++ root ++ seed

/-- The base hash-tree address both `xmss_keygen` and `xmss_verify` build:
`memset 0`, `set_layer 0`, `set_tree 0`. -/
def baseAdrs0 : Adrs := (Adrs.zero.setLayer 0).setTree 0

/-- `xmss_keygen` (src/src/xmss.c) with the bytes delivered by a successful
entropy callback as input: `SK_SEED || SK_PRF || SEED`, the tree root by
`treehash` over all `2 ^ h` leaves, and the PK/SK byte layouts.  Returns
`(pk, sk)`. -/
def xmssKeygen (p : Params) (hf : HashFns) (entropy : List Nat) :
    List Nat × List Nat :=
  let skSeed := entropy.take p.n
  let skPrf := segment entropy p.n p.n
  let seed := segment entropy (2 * p.n) p.n
  let root := treehash p hf skSeed seed 0 (2 ^ p.h) baseAdrs0
  (ullToBytes 4 p.oid ++ root ++ seed, mkSk p 0 skSeed skPrf root seed)

/-- `xmss_sign` (src/src/xmss.c).  Returns the status, the updated secret
key, and the signature (`none` when the function returns before touching
the caller's signature buffer). -/
def xmssSign (p : Params) (hf : HashFns) (msg sk : List Nat) :
    Int × List Nat × Option (List Nat) :=
  let skSeed := segment sk (4 + p.idxBytes) p.n
  let skPrf := segment sk (4 + p.idxBytes + p.n) p.n
  let root := segment sk (4 + p.idxBytes + 2 * p.n) p.n
  let pubSeed := segment sk (4 + p.idxBytes + 3 * p.n) p.n
  let idx := bytesToUll (segment sk 4 p.idxBytes)
  if idx > p.idxMax then (XMSS_ERR_EXHAUSTED, sk, none)
  else
    let sk1 := sk.take 4 ++ ullToBytes p.idxBytes (idx + 1) ++ sk.drop (4 + p.idxBytes)
    let r := hf.PRFidx skPrf idx
    let mHash := hf.Hmsg r root idx msg
    let otsAdrs := ((baseAdrs0.setType TYPE_OTS).setOts (u32 idx))
    let wotsSig := wotsSign p hf mHash skSeed pubSeed otsAdrs
    let auth := treehashAuthPath p hf skSeed pubSeed (u32 idx) baseAdrs0
    let sig := ullToBytes p.idxBytes idx ++ r ++ wotsSig.flatten ++ auth.flatten
    (XMSS_OK, sk1, some sig)

/-- `xmss_verify` (src/src/xmss.c). -/
def xmssVerify (p : Params) (hf : HashFns) (msg sig pk : List Nat) : Int :=
  let pkRoot := segment pk 4 p.n
  let pkSeed := segment pk (4 + p.n) p.n
  let idx := bytesToUll (sig.take p.idxBytes)
  if idx > p.idxMax then XMSS_ERR_VERIFY
  else
    let r := segment sig p.idxBytes p.n
    let mHash := hf.Hmsg r pkRoot idx msg
    let sigWots := sliceNodes p.n (sig.drop (p.idxBytes + p.n)) p.len
    let auth := sliceNodes p.n (sig.drop (p.idxBytes + p.n + p.len * p.n)) p.h
    let otsAdrs := (baseAdrs0.setType TYPE_OTS).setOts (u32 idx)
    let wpk := wotsPkFromSig p hf sigWots mHash pkSeed otsAdrs
    let ltreeAdrs := (baseAdrs0.setType TYPE_LTREE).setLtree (u32 idx)
    let leaf := lTreeRoot p hf pkSeed ltreeAdrs wpk
    let root := computeRoot p hf pkSeed baseAdrs0 leaf (u32 idx) auth
    if ctMemcmp root pkRoot p.n ≠ 0 then XMSS_ERR_VERIFY else XMSS_OK

/-- The secret key with its index field replaced (the state reached after
that many successful signatures). -/
def skWithIdx (p : Params) (sk : List Nat) (idx : Nat) : List Nat :=
  sk.take 4 ++ ullToBytes p.idxBytes idx ++ sk.drop (4 + p.idxBytes)

/-- The length facts about the five hash primitives that the byte layouts
rely on (each produces `n` bytes). -/
structure HashLens (p : Params) (hf : HashFns) : Prop where
  lenF : ∀ key a m, (hf.F key a m).length = p.n
  lenH : ∀ key a l r, (hf.H key a l r).length = p.n
  lenPRFkeygen : ∀ s a, (hf.PRFkeygen s a).length = p.n
  lenPRFidx : ∀ s i, (hf.PRFidx s i).length = p.n

theorem genChainGo_length (p : Params) (hf : HashFns) (seed : List Nat)
    (hF : ∀ key a m, (hf.F key a m).length = p.n) :
    ∀ steps a x i, x.length = p.n →
      (genChainGo p hf seed a x i steps).length = p.n := by
  intro steps
  induction steps with
  | zero => intro a x i hx; exact hx
  | succ m ih =>
      intro a x i hx
      rw [genChainGo]
      by_cases hi : i < p.w
      · rw [if_pos hi]
        exact ih _ _ _ (hF _ _ _)
      · rw [if_neg hi]
        exact hx

theorem wotsSign_mem_length (p : Params) (hf : HashFns)
    (msg skSeed seed : List Nat) (adrs : Adrs) (hl : HashLens p hf) :
    ∀ x ∈ wotsSign p hf msg skSeed seed adrs, x.length = p.n := by
  intro x hx
  unfold wotsSign at hx
  obtain ⟨i, hmem, rfl⟩ := List.mem_map.mp hx
  have hi : i < p.len := List.mem_range.mp hmem
  apply genChainGo_length p hf seed hl.lenF
  unfold wotsExpandSeed
  rw [mapRange_getD, if_pos hi]
  exact hl.lenPRFkeygen _ _

theorem flatten_length_uniform {n : Nat} (nodes : List (List Nat))
    (h : ∀ x ∈ nodes, x.length = n) :
    nodes.flatten.length = nodes.length * n := by
  induction nodes with
  | nil => simp
  | cons x xs ih =>
      rw [List.flatten_cons, List.length_append, h x (by simp),
        ih (fun y hy => h y (by simp [hy])), List.length_cons]
      ring

theorem segment_flatten {n : Nat} :
    ∀ (nodes : List (List Nat)) (rest : List Nat),
      (∀ x ∈ nodes, x.length = n) →
      ∀ j < nodes.length,
        segment (nodes.flatten ++ rest) (j * n) n = nodes.getD j [] := by
  intro nodes
  induction nodes with
  | nil => intro rest _ j hj; simp at hj
  | cons x xs ih =>
      intro rest h j hj
      cases j with
      | zero =>
          unfold segment
          rw [Nat.zero_mul, List.drop_zero, List.flatten_cons, List.append_assoc,
            List.take_left' (h x (by simp))]
          rfl
      | succ m =>
          unfold segment
          have hx : x.length = n := h x (by simp)
          have hdrop : ((x :: xs).flatten ++ rest).drop ((m + 1) * n) =
              (xs.flatten ++ rest).drop (m * n) := by
            rw [List.flatten_cons, List.append_assoc]
            rw [show (m + 1) * n = x.length + m * n by rw [hx]; ring]
            rw [List.drop_append]
          rw [hdrop]
          have := ih rest (fun y hy => h y (by simp [hy])) m (by simpa using hj)
          unfold segment at this
          rw [this]
          rfl

theorem sliceNodes_flatten_append {n : Nat} (nodes : List (List Nat))
    (rest : List Nat) (h : ∀ x ∈ nodes, x.length = n) :
    sliceNodes n (nodes.flatten ++ rest) nodes.length = nodes := by
  unfold sliceNodes
  apply List.ext_getElem
  · simp
  · intro j hj1 hj2
    rw [List.getElem_map, List.getElem_range]
    have hjlen : j < nodes.length := by simpa using hj2
    have := segment_flatten nodes rest h j hjlen
    rw [this, List.getD_eq_getElem _ _ hjlen]

theorem wotsGenPk_mem_length (p : Params) (hf : HashFns)
    (skSeed seed : List Nat) (adrs : Adrs) (hl : HashLens p hf) :
    ∀ x ∈ wotsGenPk p hf skSeed seed adrs, x.length = p.n := by
  intro x hx
  unfold wotsGenPk at hx
  obtain ⟨i, hmem, rfl⟩ := List.mem_map.mp hx
  have hi : i < p.len := List.mem_range.mp hmem
  apply genChainGo_length p hf seed hl.lenF
  unfold wotsExpandSeed
  rw [mapRange_getD, if_pos hi]
  exact hl.lenPRFkeygen _ _

theorem lTreeLevel_length (p : Params) (hf : HashFns) (seed : List Nat)
    (a : Adrs) (buf : List (List Nat)) (len height : Nat)
    (hlen : len ≤ buf.length) :
    (lTreeLevel p hf seed a buf len height).length = buf.length := by
  unfold lTreeLevel
  have hb : ((List.range (len / 2)).map (fun i =>
      hf.H seed ((a.setTreeHeight height).setTreeIndex i)
        (buf.getD (2 * i) []) (buf.getD (2 * i + 1) []))
      ++ buf.drop (len / 2)).length = buf.length := by
    rw [List.length_append, List.length_map, List.length_range, List.length_drop]
    omega
  by_cases hodd : len % 2 = 1
  · rw [if_pos hodd, List.length_set, hb]
  · rw [if_neg hodd, hb]

theorem lTreeLevel_mem_length (p : Params) (hf : HashFns) (seed : List Nat)
    (a : Adrs) (buf : List (List Nat)) (len height : Nat)
    (hl : HashLens p hf) (hbuf : ∀ x ∈ buf, x.length = p.n)
    (hlen : len ≤ buf.length) :
    ∀ x ∈ lTreeLevel p hf seed a buf len height, x.length = p.n := by
  intro x hx
  unfold lTreeLevel at hx
  have hbase : ∀ y ∈ ((List.range (len / 2)).map (fun i =>
      hf.H seed ((a.setTreeHeight height).setTreeIndex i)
        (buf.getD (2 * i) []) (buf.getD (2 * i + 1) []))
      ++ buf.drop (len / 2)), y.length = p.n := by
    intro y hy
    rcases List.mem_append.mp hy with hm | hm
    · obtain ⟨i, _, rfl⟩ := List.mem_map.mp hm
      exact hl.lenH _ _ _ _
    · exact hbuf y (List.mem_of_mem_drop hm)
  by_cases hodd : len % 2 = 1
  · rw [if_pos hodd] at hx
    rcases List.mem_or_eq_of_mem_set hx with hm | hm
    · exact hbase x hm
    · rw [hm]
      by_cases hrange : len - 1 < buf.length
      · rw [List.getD_eq_getElem _ _ hrange]
        exact hbuf _ (List.getElem_mem hrange)
      · omega
  · rw [if_neg hodd] at hx
    exact hbase x hx

theorem lTreeGo_length_facts (p : Params) (hf : HashFns) (seed : List Nat)
    (a : Adrs) (hl : HashLens p hf) :
    ∀ fuel buf len height, len ≤ buf.length → (∀ x ∈ buf, x.length = p.n) →
      (lTreeGo p hf seed a fuel buf len height).length = buf.length ∧
      ∀ x ∈ lTreeGo p hf seed a fuel buf len height, x.length = p.n := by
  intro fuel
  induction fuel with
  | zero => intro buf len height _ hbuf; exact ⟨rfl, hbuf⟩
  | succ m ih =>
      intro buf len height hlen hbuf
      rw [lTreeGo]
      by_cases hgt : 1 < len
      · rw [if_pos hgt]
        have hlev := lTreeLevel_length p hf seed a buf len height hlen
        have hnext := ih (lTreeLevel p hf seed a buf len height) ((len + 1) / 2)
          (height + 1) (by omega)
          (lTreeLevel_mem_length p hf seed a buf len height hl hbuf hlen)
        exact ⟨by rw [hnext.1, hlev], hnext.2⟩
      · rw [if_neg hgt]
        exact ⟨rfl, hbuf⟩

theorem lTreeRoot_length (p : Params) (hf : HashFns) (seed : List Nat)
    (a : Adrs) (buf : List (List Nat)) (hl : HashLens p hf)
    (hbuf : ∀ x ∈ buf, x.length = p.n) (hlen : buf.length = p.len)
    (hpos : 0 < p.len) :
    (lTreeRoot p hf seed a buf).length = p.n := by
  unfold lTreeRoot lTree
  have hfacts := lTreeGo_length_facts p hf seed a hl p.len buf p.len a.w0
    (by omega) hbuf
  have hfacts2 := lTreeGo_length_facts p hf seed a hl p.len buf p.len 0
    (by omega) hbuf
  have hne : 0 < (lTreeGo p hf seed a p.len buf p.len 0).length := by
    rw [hfacts2.1]; omega
  simp only []
  rw [List.getD_eq_getElem _ _ hne]
  exact hfacts2.2 _ (List.getElem_mem hne)

theorem leafCalc_length (p : Params) (hf : HashFns) (skSeed seed : List Nat)
    (base : Adrs) (idx : Nat) (hl : HashLens p hf) (hpos : 0 < p.len) :
    (leafCalc p hf skSeed seed base idx).length = p.n := by
  unfold leafCalc
  apply lTreeRoot_length p hf seed _ _ hl
    (wotsGenPk_mem_length p hf skSeed seed _ hl) _ hpos
  unfold wotsGenPk
  simp

theorem treeNode_length (p : Params) (hf : HashFns) (skSeed seed : List Nat)
    (base : Adrs) (hl : HashLens p hf) (hpos : 0 < p.len) :
    ∀ k b, (treeNode p hf skSeed seed base k b).length = p.n := by
  intro k
  cases k with
  | zero => intro b; exact leafCalc_length p hf skSeed seed base b hl hpos
  | succ m => intro b; exact hl.lenH _ _ _ _

theorem treehashAuthPath_mem_length (p : Params) (hf : HashFns)
    (skSeed seed : List Nat) (idx : Nat) (base : Adrs)
    (hl : HashLens p hf) (hpos : 0 < p.len) :
    ∀ x ∈ treehashAuthPath p hf skSeed seed idx base, x.length = p.n := by
  intro x hx
  unfold treehashAuthPath at hx
  obtain ⟨ℓ, hmem, rfl⟩ := List.mem_map.mp hx
  have hℓ : ℓ < p.h := List.mem_range.mp hmem
  have := treehashAuthPath_getD p hf skSeed seed idx base ℓ hℓ
  unfold treehashAuthPath at this
  rw [mapRange_getD, if_pos hℓ] at this
  rw [this]
  exact treeNode_length p hf skSeed seed base hl hpos _ _

/-! ### Byte-layout reader lemmas for the assembled SK / PK / signature -/

theorem drop_append_len {a : List Nat} (b : List Nat) (k j : Nat)
    (h : a.length = k) : (a ++ b).drop (k + j) = b.drop j := by
  rw [← h, List.drop_append]

theorem drop_append_len0 {a : List Nat} (b : List Nat) (k : Nat)
    (h : a.length = k) : (a ++ b).drop k = b := by
  rw [← h, List.drop_left]

theorem take_append_len {a : List Nat} (b : List Nat) (k : Nat)
    (h : a.length = k) : (a ++ b).take k = a := by
  rw [← h, List.take_left]

theorem take_self_len {a : List Nat} (k : Nat) (h : a.length = k) :
    a.take k = a := by
  rw [← h, List.take_length]

theorem mkSk_assoc (p : Params) (j : Nat) (A B C D : List Nat) :
    mkSk p j A B C D =
      ullToBytes 4 p.oid ++ (ullToBytes p.idxBytes j ++ (A ++ (B ++ (C ++ D)))) := by
  unfold mkSk
  simp [List.append_assoc]

theorem mkSk_take4 (p : Params) (j : Nat) (A B C D : List Nat) :
    (mkSk p j A B C D).take 4 = ullToBytes 4 p.oid := by
  rw [mkSk_assoc]
  exact take_append_len _ _ (ullToBytes_length 4 p.oid)

theorem mkSk_idx_read (p : Params) (j : Nat) (A B C D : List Nat) :
    segment (mkSk p j A B C D) 4 p.idxBytes = ullToBytes p.idxBytes j := by
  unfold segment
  rw [mkSk_assoc, drop_append_len0 _ _ (ullToBytes_length 4 p.oid),
    take_append_len _ _ (ullToBytes_length p.idxBytes j)]

theorem mkSk_drop (p : Params) (j : Nat) (A B C D : List Nat) :
    (mkSk p j A B C D).drop (4 + p.idxBytes) = A ++ (B ++ (C ++ D)) := by
  rw [mkSk_assoc, drop_append_len _ _ _ (ullToBytes_length 4 p.oid),
    drop_append_len0 _ _ (ullToBytes_length p.idxBytes j)]

theorem skWithIdx_mkSk (p : Params) (j k : Nat) (A B C D : List Nat) :
    skWithIdx p (mkSk p j A B C D) k = mkSk p k A B C D := by
  unfold skWithIdx
  rw [mkSk_take4, mkSk_drop, mkSk_assoc]
  simp [List.append_assoc]

theorem mkSk_read_seed (p : Params) (j : Nat) (A B C D : List Nat)
    (hA : A.length = p.n) :
    segment (mkSk p j A B C D) (4 + p.idxBytes) p.n = A := by
  unfold segment
  rw [mkSk_drop, take_append_len _ _ hA]

theorem mkSk_read_prf (p : Params) (j : Nat) (A B C D : List Nat)
    (hA : A.length = p.n) (hB : B.length = p.n) :
    segment (mkSk p j A B C D) (4 + p.idxBytes + p.n) p.n = B := by
  unfold segment
  rw [← List.drop_drop, mkSk_drop, drop_append_len0 _ _ hA,
    take_append_len _ _ hB]

theorem mkSk_read_root (p : Params) (j : Nat) (A B C D : List Nat)
    (hA : A.length = p.n) (hB : B.length = p.n) (hC : C.length = p.n) :
    segment (mkSk p j A B C D) (4 + p.idxBytes + 2 * p.n) p.n = C := by
  unfold segment
  rw [show 2 * p.n = p.n + p.n by ring, ← Nat.add_assoc, ← List.drop_drop,
    ← List.drop_drop, mkSk_drop, drop_append_len0 _ _ hA,
    drop_append_len0 _ _ hB, take_append_len _ _ hC]

theorem mkSk_read_pubseed (p : Params) (j : Nat) (A B C D : List Nat)
    (hA : A.length = p.n) (hB : B.length = p.n) (hC : C.length = p.n)
    (hD : D.length = p.n) :
    segment (mkSk p j A B C D) (4 + p.idxBytes + 3 * p.n) p.n = D := by
  unfold segment
  rw [show 3 * p.n = p.n + p.n + p.n by ring, ← Nat.add_assoc, ← Nat.add_assoc,
    ← List.drop_drop, ← List.drop_drop, ← List.drop_drop, mkSk_drop,
    drop_append_len0 _ _ hA, drop_append_len0 _ _ hB, drop_append_len0 _ _ hC,
    take_self_len _ hD]

/-- The signature bytes `xmss_sign` produces at index `k` from SK components
`A = SK_SEED`, `B = SK_PRF`, `C = root`, `D = SEED`. -/
def xmssSigO (p : Params) (hf : HashFns) (msg A B C D : List Nat) (k : Nat) :
    List Nat :=
  ullToBytes p.idxBytes k ++ hf.PRFidx B k ++
  (wotsSign p hf (hf.Hmsg (hf.PRFidx B k) C k msg) A D
    ((baseAdrs0.setType TYPE_OTS).setOts (u32 k))).flatten ++
  (treehashAuthPath p hf A D (u32 k) baseAdrs0).flatten

/-- `xmss_sign` on an assembled secret key with index `k ≤ idx_max`:
succeeds, bumps the stored index to `k + 1` and leaves every other SK byte
unchanged, and emits `idx || r || sig_WOTS || auth`. -/
theorem xmssSign_mkSk (p : Params) (hf : HashFns) (msg A B C D : List Nat)
    (k : Nat) (hA : A.length = p.n) (hB : B.length = p.n) (hC : C.length = p.n)
    (hD : D.length = p.n) (hk : ¬ k > p.idxMax) (hkfit : k < 256 ^ p.idxBytes) :
    xmssSign p hf msg (mkSk p k A B C D) =
      (XMSS_OK, mkSk p (k + 1) A B C D, some (xmssSigO p hf msg A B C D k)) := by
  unfold xmssSign
  rw [mkSk_idx_read, bytesToUll_ullToBytes_of_lt hkfit]
  rw [if_neg hk]
  rw [mkSk_read_seed p k A B C D hA, mkSk_read_prf p k A B C D hA hB,
    mkSk_read_root p k A B C D hA hB hC, mkSk_read_pubseed p k A B C D hA hB hC hD]
  rw [mkSk_take4, mkSk_drop]
  simp [mkSk, xmssSigO, List.append_assoc]

/-- `xmss_verify` accepts the signature `xmss_sign` produced, for any
abstract hash bundle producing `n`-byte outputs. -/
theorem xmssVerify_sigO (p : Params) (hf : HashFns) (msg A B C D : List Nat)
    (k : Nat) (hl : HashLens p hf)
    (hA : A.length = p.n) (hD : D.length = p.n)
    (hroot : C = treeNode p hf A D baseAdrs0 p.h 0)
    (hk : ¬ k > p.idxMax) (hkfit : k < 256 ^ p.idxBytes)
    (hmax : p.idxMax = 2 ^ p.h - 1) (h32 : p.h ≤ 32)
    (hw : 2 ≤ p.w) (hpos : 0 < p.len) :
    xmssVerify p hf msg (xmssSigO p hf msg A B C D k)
      (ullToBytes 4 p.oid ++ C ++ D) = XMSS_OK := by
  have h1 : (1 : Nat) ≤ 2 ^ p.h := Nat.one_le_two_pow
  have hk2h : k < 2 ^ p.h := by omega
  have hu32 : u32 k = k := by
    unfold u32
    exact Nat.mod_eq_of_lt (lt_of_lt_of_le hk2h
      (Nat.pow_le_pow_right (by norm_num) h32))
  have hClen : C.length = p.n := by
    rw [hroot]; exact treeNode_length p hf A D baseAdrs0 hl hpos _ _
  have hrlen : (hf.PRFidx B k).length = p.n := hl.lenPRFidx _ _
  have hWmem : ∀ x ∈ wotsSign p hf (hf.Hmsg (hf.PRFidx B k) C k msg) A D
      ((baseAdrs0.setType TYPE_OTS).setOts (u32 k)), x.length = p.n :=
    wotsSign_mem_length p hf _ A D _ hl
  have hAUmem : ∀ x ∈ treehashAuthPath p hf A D (u32 k) baseAdrs0,
      x.length = p.n :=
    treehashAuthPath_mem_length p hf A D (u32 k) baseAdrs0 hl hpos
  have hWlen : (wotsSign p hf (hf.Hmsg (hf.PRFidx B k) C k msg) A D
      ((baseAdrs0.setType TYPE_OTS).setOts (u32 k))).length = p.len := by
    unfold wotsSign; simp
  have hAUlen : (treehashAuthPath p hf A D (u32 k) baseAdrs0).length = p.h := by
    unfold treehashAuthPath; simp
  have hWflat : (wotsSign p hf (hf.Hmsg (hf.PRFidx B k) C k msg) A D
      ((baseAdrs0.setType TYPE_OTS).setOts (u32 k))).flatten.length =
      p.len * p.n := by
    rw [flatten_length_uniform _ hWmem, hWlen]
  unfold xmssVerify xmssSigO
  simp only [List.append_assoc, hu32]
  rw [take_append_len _ _ (ullToBytes_length p.idxBytes k),
    bytesToUll_ullToBytes_of_lt hkfit, if_neg hk]
  rw [show segment (ullToBytes 4 p.oid ++ (C ++ D)) 4 p.n = C from by
    unfold segment
    rw [drop_append_len0 _ _ (ullToBytes_length 4 p.oid), take_append_len _ _ hClen]]
  rw [show segment (ullToBytes 4 p.oid ++ (C ++ D)) (4 + p.n) p.n = D from by
    unfold segment
    rw [drop_append_len _ _ _ (ullToBytes_length 4 p.oid),
      drop_append_len0 _ _ hClen, take_self_len _ hD]]
  rw [show segment (ullToBytes p.idxBytes k ++ (hf.PRFidx B k ++
      ((wotsSign p hf (hf.Hmsg (hf.PRFidx B k) C k msg) A D
        ((baseAdrs0.setType TYPE_OTS).setOts k)).flatten ++
       (treehashAuthPath p hf A D k baseAdrs0).flatten)))
      p.idxBytes p.n = hf.PRFidx B k from by
    unfold segment
    rw [drop_append_len0 _ _ (ullToBytes_length p.idxBytes k),
      take_append_len _ _ hrlen]]
  rw [hu32] at hWmem hAUmem hWlen hAUlen hWflat
  rw [show (ullToBytes p.idxBytes k ++ (hf.PRFidx B k ++
      ((wotsSign p hf (hf.Hmsg (hf.PRFidx B k) C k msg) A D
        ((baseAdrs0.setType TYPE_OTS).setOts k)).flatten ++
       (treehashAuthPath p hf A D k baseAdrs0).flatten))).drop
      (p.idxBytes + p.n) =
      (wotsSign p hf (hf.Hmsg (hf.PRFidx B k) C k msg) A D
        ((baseAdrs0.setType TYPE_OTS).setOts k)).flatten ++
      (treehashAuthPath p hf A D k baseAdrs0).flatten from by
    rw [← List.drop_drop, drop_append_len0 _ _ (ullToBytes_length p.idxBytes k),
      drop_append_len0 _ _ hrlen]]
  rw [show (ullToBytes p.idxBytes k ++ (hf.PRFidx B k ++
      ((wotsSign p hf (hf.Hmsg (hf.PRFidx B k) C k msg) A D
        ((baseAdrs0.setType TYPE_OTS).setOts k)).flatten ++
       (treehashAuthPath p hf A D k baseAdrs0).flatten))).drop
      (p.idxBytes + p.n + p.len * p.n) =
      (treehashAuthPath p hf A D k baseAdrs0).flatten from by
    rw [← List.drop_drop, ← List.drop_drop,
      drop_append_len0 _ _ (ullToBytes_length p.idxBytes k),
      drop_append_len0 _ _ hrlen, drop_append_len0 _ _ hWflat]]
  rw [show p.len = (wotsSign p hf (hf.Hmsg (hf.PRFidx B k) C k msg) A D
      ((baseAdrs0.setType TYPE_OTS).setOts k)).length from hWlen.symm]
  rw [sliceNodes_flatten_append _ _ hWmem]
  simp only [hu32]
  rw [wotsPkFromSig_wotsSign p hf _ A D _ (by omega)]
  rw [show p.h = (treehashAuthPath p hf A D k baseAdrs0).length from hAUlen.symm]
  rw [show (treehashAuthPath p hf A D k baseAdrs0).flatten =
      (treehashAuthPath p hf A D k baseAdrs0).flatten ++ [] from
      (List.append_nil _).symm]
  rw [sliceNodes_flatten_append _ _ hAUmem]
  have hleaf : lTreeRoot p hf D ((baseAdrs0.setType TYPE_LTREE).setLtree k)
      (wotsGenPk p hf A D ((baseAdrs0.setType TYPE_OTS).setOts k)) =
      treeNode p hf A D baseAdrs0 0 k := rfl
  rw [hleaf]
  unfold computeRoot
  rw [computeRootGo_treeNode p hf A D baseAdrs0 _ p.h 0 k
    (fun j hj => by
      rw [Nat.zero_add]
      exact treehashAuthPath_getD p hf A D k baseAdrs0 j hj)]
  rw [Nat.zero_add, Nat.shiftRight_eq_div_pow, Nat.div_eq_of_lt hk2h, ← hroot]
  rw [ctMemcmp_self C C p.n (fun i _ => rfl)]
  simp

/-! ## Facts about every table-derived parameter set -/

/-- The arithmetic facts, true of every parameter set `derive_params`
produces from the static OID table, that the roundtrip proofs rely on. -/
def goodParamsB (p : Params) : Bool :=
  decide (p.d = 1 → p.h ≤ 32) && decide (p.treeHeight ≤ 32) && decide (2 ≤ p.w) &&
  decide (0 < p.len) && decide (0 < p.d) && decide (0 < p.n) &&
  decide (p.idxMax = 2 ^ p.h - 1) && decide (p.idxMax < 256 ^ p.idxBytes) &&
  decide (p.h = p.d * p.treeHeight)

theorem deriveParams_good :
    ∀ e ∈ oidTableXmss ++ oidTableXmssMt,
      ((deriveParams e).map
        (fun q => goodParamsB q && decide (q.d = e.d))).getD true = true := by
  decide

theorem xmssParamsFromOid_good (oid : Nat) (p : Params)
    (h : xmssParamsFromOid oid = some p) :
    goodParamsB p = true ∧ p.d = 1 := by
  unfold xmssParamsFromOid at h
  cases hfind : (oidTableXmss ++ oidTableXmssMt).find?
      (fun e => e.oid = oid && e.d = 1) with
  | none =>
      rw [hfind] at h
      exact Option.noConfusion h
  | some e =>
      rw [hfind] at h
      have h2 : deriveParams e = some p := h
      have hmem := List.mem_of_find?_eq_some hfind
      have hg := deriveParams_good e hmem
      rw [h2] at hg
      have hpred := List.find?_some hfind
      simp only [Bool.and_eq_true, decide_eq_true_eq] at hpred
      simp at hg
      exact ⟨hg.1, hg.2.trans hpred.2⟩

theorem xmssmtParamsFromOid_good (oid : Nat) (p : Params)
    (h : xmssmtParamsFromOid oid = some p) : goodParamsB p = true := by
  unfold xmssmtParamsFromOid at h
  have h0 : (match (oidTableXmss ++ oidTableXmssMt).find?
      (fun e => e.oid =
        (if 0 < oid && oid ≤ 0x20 then oid ||| OID_XMSSMT_PREFIX else oid) &&
        e.d > 1) with
    | none => none
    | some e => deriveParams e) = some p := h
  cases hfind : (oidTableXmss ++ oidTableXmssMt).find?
      (fun e => e.oid =
        (if 0 < oid && oid ≤ 0x20 then oid ||| OID_XMSSMT_PREFIX else oid) &&
        e.d > 1) with
  | none =>
      rw [hfind] at h0
      exact Option.noConfusion h0
  | some e =>
      rw [hfind] at h0
      have h2 : deriveParams e = some p := h0
      have hmem := List.mem_of_find?_eq_some hfind
      have hg := deriveParams_good e hmem
      rw [h2] at hg
      simp at hg
      exact hg.1

/-- The unfolded `goodParamsB` facts as propositions. -/
theorem goodParams_spec (p : Params) (h : goodParamsB p = true) :
    (p.d = 1 → p.h ≤ 32) ∧ p.treeHeight ≤ 32 ∧ 2 ≤ p.w ∧ 0 < p.len ∧
    0 < p.d ∧ 0 < p.n ∧
    p.idxMax = 2 ^ p.h - 1 ∧ p.idxMax < 256 ^ p.idxBytes ∧
    p.h = p.d * p.treeHeight := by
  unfold goodParamsB at h
  simp only [Bool.and_eq_true, decide_eq_true_eq] at h
  tauto

/-- `xmss_keygen` in closed form: the tree root is the height-`h` Merkle
node over leaf `0`, and pk/sk carry the documented layouts. -/
theorem xmssKeygen_eq (p : Params) (hf : HashFns) (entropy : List Nat) :
    xmssKeygen p hf entropy =
      (ullToBytes 4 p.oid ++
        treeNode p hf (entropy.take p.n) (segment entropy (2 * p.n) p.n)
          baseAdrs0 p.h 0 ++ segment entropy (2 * p.n) p.n,
       mkSk p 0 (entropy.take p.n) (segment entropy p.n p.n)
         (treeNode p hf (entropy.take p.n) (segment entropy (2 * p.n) p.n)
           baseAdrs0 p.h 0)
         (segment entropy (2 * p.n) p.n)) := by
  unfold xmssKeygen
  dsimp only
  rw [treehash_root p hf _ _ baseAdrs0 0 p.h (Dvd.intro 0 rfl)]
  rw [Nat.zero_div]

/-! ## impl/c/src/xmss_mt.c : XMSS-MT verification and the honest signer -/

/-- The per-layer base address `xmss_mt_verify` builds: layer `i`, 64-bit
tree index `t` (`memset 0`, `set_layer`, `set_tree`). -/
def mtBase (layer t : Nat) : Adrs := (Adrs.zero.setLayer layer).setTree t

/-- Root of the XMSS tree at `(layer, tree)` of the hypertree. -/
def mtTreeRoot (p : Params) (hf : HashFns) (skSeed seed : List Nat)
    (layer t : Nat) : List Nat :=
  treeNode p hf skSeed seed (mtBase layer t) p.treeHeight 0

/-- The layer loop of `xmss_mt_verify`, recursing on the remaining layer
count (its `compute_root` is the tree_height-level walk `computeRootMT`). -/
def mtVerifyGo (p : Params) (hf : HashFns) (pkSeed : List Nat) :
    Nat → Nat → Nat → List Nat → List Nat → List Nat
  | 0, _, _, node, _ => node
  | c + 1, layer, idx, node, rest =>
    let idxLeaf := u32 (idx &&& (2 ^ p.treeHeight - 1))
    let idxT := idx >>> p.treeHeight
    let sigWots := sliceNodes p.n rest p.len
    let wpk := wotsPkFromSig p hf sigWots node pkSeed
      (((mtBase layer idxT).setType TYPE_OTS).setOts idxLeaf)
    let leaf := lTreeRoot p hf pkSeed
      (((mtBase layer idxT).setType TYPE_LTREE).setLtree idxLeaf) wpk
    let auth := sliceNodes p.n (rest.drop (p.len * p.n)) p.treeHeight
    let node2 := computeRootMT p hf pkSeed (mtBase layer idxT) leaf idxLeaf auth
    mtVerifyGo p hf pkSeed c (layer + 1) idxT node2
      (rest.drop (p.len * p.n + p.treeHeight * p.n))

/-- `xmss_mt_verify` (impl/c/src/xmss_mt.c). -/
def mtVerify (p : Params) (hf : HashFns) (msg sig pk : List Nat) : Int :=
  let pkRoot := segment pk 4 p.n
  let pkSeed := segment pk (4 + p.n) p.n
  let idx := bytesToUll (sig.take p.idxBytes)
  if idx > p.idxMax then XMSS_ERR_VERIFY
  else
    let r := segment sig p.idxBytes p.n
    let mHash := hf.Hmsg r pkRoot idx msg
    let root := mtVerifyGo p hf pkSeed p.d 0 idx mHash
      (sig.drop (p.idxBytes + p.n))
    if ctMemcmp root pkRoot p.n ≠ 0 then XMSS_ERR_VERIFY else XMSS_OK

/-- Modelled from the spec: the Merkle siblings of leaf `s` in the tree at
`(layer, t)` - the values the signer's BDS auth array holds for the signing
leaf (the impl/c BDS update code is not in the source tree). -/
def mtAuthNodes (p : Params) (hf : HashFns) (skSeed seed : List Nat)
    (layer t s : Nat) : List (List Nat) :=
  (List.range p.treeHeight).map
    (fun j => treeNode p hf skSeed seed (mtBase layer t) j ((s >>> j) ^^^ 1))

/-- Modelled from the spec: the reduced signature the honest signer emits at
one layer - the WOTS+ signature of `m` under the leaf key, then the auth
path of that leaf. -/
def mtReducedSig (p : Params) (hf : HashFns) (skSeed seed m : List Nat)
    (layer idx : Nat) : List Nat :=
  let s := u32 (idx &&& (2 ^ p.treeHeight - 1))
  let t := idx >>> p.treeHeight
  (wotsSign p hf m skSeed seed
    (((mtBase layer t).setType TYPE_OTS).setOts s)).flatten ++
  (mtAuthNodes p hf skSeed seed layer t s).flatten

/-- Modelled from the spec: the layered part of the honest XMSS-MT
signature - layer 0 signs the message hash, each layer above signs the root
of the just-used tree one layer below. -/
def mtSigLayers (p : Params) (hf : HashFns) (skSeed seed : List Nat) :
    Nat → Nat → List Nat → Nat → List Nat
  | 0, _, _, _ => []
  | c + 1, layer, m, idx =>
    mtReducedSig p hf skSeed seed m layer idx ++
    mtSigLayers p hf skSeed seed c (layer + 1)
      (mtTreeRoot p hf skSeed seed layer (idx >>> p.treeHeight))
      (idx >>> p.treeHeight)

/-- Modelled from the spec: the honest XMSS-MT signature at index `idx`
(`idx || r || reduced_sig_0 || ... || reduced_sig_(d-1)`). -/
def mtSigO (p : Params) (hf : HashFns) (skSeed skPrf seed root msg : List Nat)
    (idx : Nat) : List Nat :=
  ullToBytes p.idxBytes idx ++ hf.PRFidx skPrf idx ++
  mtSigLayers p hf skSeed seed p.d 0
    (hf.Hmsg (hf.PRFidx skPrf idx) root idx msg) idx

theorem mtAuthNodes_length (p : Params) (hf : HashFns)
    (skSeed seed : List Nat) (layer t s : Nat) :
    (mtAuthNodes p hf skSeed seed layer t s).length = p.treeHeight := by
  unfold mtAuthNodes
  simp

theorem mtAuthNodes_mem_length (p : Params) (hf : HashFns)
    (skSeed seed : List Nat) (layer t s : Nat) (hl : HashLens p hf)
    (hpos : 0 < p.len) :
    ∀ x ∈ mtAuthNodes p hf skSeed seed layer t s, x.length = p.n := by
  intro x hx
  unfold mtAuthNodes at hx
  obtain ⟨j, _, rfl⟩ := List.mem_map.mp hx
  exact treeNode_length p hf skSeed seed (mtBase layer t) hl hpos _ _

theorem mtAuthNodes_getD (p : Params) (hf : HashFns)
    (skSeed seed : List Nat) (layer t s j : Nat) (hj : j < p.treeHeight) :
    (mtAuthNodes p hf skSeed seed layer t s).getD j [] =
      treeNode p hf skSeed seed (mtBase layer t) j ((s >>> j) ^^^ 1) := by
  unfold mtAuthNodes
  rw [mapRange_getD, if_pos hj]

/-- `sliceNodes_flatten_append` with the node count given as any expression
equal to the list length. -/
theorem sliceNodes_flatten_append_count {n : Nat} (nodes : List (List Nat))
    (rest : List Nat) (hmem : ∀ x ∈ nodes, x.length = n) (c : Nat)
    (hc : c = nodes.length) :
    sliceNodes n (nodes.flatten ++ rest) c = nodes := by
  rw [hc]
  exact sliceNodes_flatten_append nodes rest hmem

/-- The verify layer loop, fed the honest layered signature, reduces each
layer to the root of the tree the signer used there. -/
theorem mtVerifyGo_sigLayers (p : Params) (hf : HashFns)
    (skSeed seed : List Nat) (hl : HashLens p hf) (hw : 2 ≤ p.w)
    (hpos : 0 < p.len) (h32 : p.treeHeight ≤ 32) :
    ∀ (c layer idx : Nat) (m tail : List Nat),
      mtVerifyGo p hf seed c layer idx m
          (mtSigLayers p hf skSeed seed c layer m idx ++ tail) =
        (if c = 0 then m
         else mtTreeRoot p hf skSeed seed (layer + c - 1)
           (idx >>> (c * p.treeHeight))) := by
  intro c
  induction c with
  | zero =>
      intro layer idx m tail
      simp [mtVerifyGo]
  | succ c ih =>
      intro layer idx m tail
      have hs0 : idx &&& (2 ^ p.treeHeight - 1) < 2 ^ p.treeHeight := by
        have hle : idx &&& (2 ^ p.treeHeight - 1) ≤ 2 ^ p.treeHeight - 1 :=
          Nat.and_le_right
        have hpow : 0 < 2 ^ p.treeHeight := pow_pos (by norm_num) _
        omega
      have hs32 : u32 (idx &&& (2 ^ p.treeHeight - 1)) =
          idx &&& (2 ^ p.treeHeight - 1) := by
        unfold u32
        exact Nat.mod_eq_of_lt (lt_of_lt_of_le hs0
          (Nat.pow_le_pow_right (by norm_num) h32))
      have hWmem := wotsSign_mem_length p hf m skSeed seed
        (((mtBase layer (idx >>> p.treeHeight)).setType TYPE_OTS).setOts
          (idx &&& (2 ^ p.treeHeight - 1))) hl
      have hWlen : (wotsSign p hf m skSeed seed
          (((mtBase layer (idx >>> p.treeHeight)).setType TYPE_OTS).setOts
            (idx &&& (2 ^ p.treeHeight - 1)))).length = p.len := by
        unfold wotsSign; simp
      have hWflat : (wotsSign p hf m skSeed seed
          (((mtBase layer (idx >>> p.treeHeight)).setType TYPE_OTS).setOts
            (idx &&& (2 ^ p.treeHeight - 1)))).flatten.length =
          p.len * p.n := by
        rw [flatten_length_uniform _ hWmem, hWlen]
      have hAmem := mtAuthNodes_mem_length p hf skSeed seed layer
        (idx >>> p.treeHeight) (idx &&& (2 ^ p.treeHeight - 1)) hl hpos
      have hAflat : (mtAuthNodes p hf skSeed seed layer
          (idx >>> p.treeHeight) (idx &&& (2 ^ p.treeHeight - 1))).flatten.length =
          p.treeHeight * p.n := by
        rw [flatten_length_uniform _ hAmem, mtAuthNodes_length]
      simp only [mtSigLayers, mtVerifyGo, mtReducedSig, List.append_assoc, hs32]
      rw [sliceNodes_flatten_append_count _ _ hWmem p.len hWlen.symm]
      rw [wotsPkFromSig_wotsSign p hf m skSeed seed _ (by omega)]
      rw [drop_append_len0 _ _ hWflat]
      rw [sliceNodes_flatten_append_count _ _ hAmem p.treeHeight
        (mtAuthNodes_length p hf skSeed seed _ _ _).symm]
      have hleaf : lTreeRoot p hf seed
          (((mtBase layer (idx >>> p.treeHeight)).setType TYPE_LTREE).setLtree
            (idx &&& (2 ^ p.treeHeight - 1)))
          (wotsGenPk p hf skSeed seed
            (((mtBase layer (idx >>> p.treeHeight)).setType TYPE_OTS).setOts
              (idx &&& (2 ^ p.treeHeight - 1)))) =
          treeNode p hf skSeed seed (mtBase layer (idx >>> p.treeHeight)) 0
            (idx &&& (2 ^ p.treeHeight - 1)) := rfl
      rw [hleaf]
      unfold computeRootMT
      rw [computeRootGo_treeNode p hf skSeed seed
        (mtBase layer (idx >>> p.treeHeight)) _ p.treeHeight 0
        (idx &&& (2 ^ p.treeHeight - 1))
        (fun j hj => by
          rw [Nat.zero_add]
          exact mtAuthNodes_getD p hf skSeed seed layer _ _ j hj)]
      rw [Nat.zero_add,
        show (idx &&& (2 ^ p.treeHeight - 1)) >>> p.treeHeight = 0 from by
          rw [Nat.shiftRight_eq_div_pow]; exact Nat.div_eq_of_lt hs0]
      rw [← List.drop_drop, drop_append_len0 _ _ hWflat,
        drop_append_len0 _ _ hAflat]
      rw [show treeNode p hf skSeed seed (mtBase layer (idx >>> p.treeHeight))
          p.treeHeight 0 =
          mtTreeRoot p hf skSeed seed layer (idx >>> p.treeHeight) from rfl]
      rw [ih (layer + 1) (idx >>> p.treeHeight)
        (mtTreeRoot p hf skSeed seed layer (idx >>> p.treeHeight)) tail]
      by_cases hc : c = 0
      · subst hc
        simp
      · rw [if_neg hc, if_neg (by omega : ¬ c + 1 = 0)]
        rw [← Nat.shiftRight_add]
        congr 1
        · omega
        · ring

/-- `xmss_mt_verify` accepts the honest XMSS-MT signature at any
non-exhausted index, against the public key carrying the top-layer tree
root. -/
theorem mtVerify_sigO (p : Params) (hf : HashFns)
    (skSeed skPrf seed msg O4 : List Nat) (idx : Nat)
    (hl : HashLens p hf) (hw : 2 ≤ p.w) (hpos : 0 < p.len)
    (h32 : p.treeHeight ≤ 32) (hd : 0 < p.d)
    (hO4 : O4.length = 4) (hseed : seed.length = p.n)
    (hidx : ¬ idx > p.idxMax) (hfit : idx < 256 ^ p.idxBytes)
    (hmax : p.idxMax = 2 ^ p.h - 1) (hh : p.h = p.d * p.treeHeight) :
    mtVerify p hf msg
      (mtSigO p hf skSeed skPrf seed
        (mtTreeRoot p hf skSeed seed (p.d - 1) 0) msg idx)
      (O4 ++ mtTreeRoot p hf skSeed seed (p.d - 1) 0 ++ seed) = XMSS_OK := by
  have hrootlen : (mtTreeRoot p hf skSeed seed (p.d - 1) 0).length = p.n :=
    treeNode_length p hf skSeed seed (mtBase (p.d - 1) 0) hl hpos _ _
  have hrlen : (hf.PRFidx skPrf idx).length = p.n := hl.lenPRFidx _ _
  unfold mtVerify mtSigO
  simp only [List.append_assoc]
  rw [take_append_len _ _ (ullToBytes_length p.idxBytes idx),
    bytesToUll_ullToBytes_of_lt hfit, if_neg hidx]
  rw [show segment (O4 ++ (mtTreeRoot p hf skSeed seed (p.d - 1) 0 ++ seed))
      4 p.n = mtTreeRoot p hf skSeed seed (p.d - 1) 0 from by
    unfold segment
    rw [drop_append_len0 _ _ hO4, take_append_len _ _ hrootlen]]
  rw [show segment (O4 ++ (mtTreeRoot p hf skSeed seed (p.d - 1) 0 ++ seed))
      (4 + p.n) p.n = seed from by
    unfold segment
    rw [drop_append_len _ _ _ hO4, drop_append_len0 _ _ hrootlen,
      take_self_len _ hseed]]
  rw [show segment (ullToBytes p.idxBytes idx ++ (hf.PRFidx skPrf idx ++
      mtSigLayers p hf skSeed seed p.d 0
        (hf.Hmsg (hf.PRFidx skPrf idx)
          (mtTreeRoot p hf skSeed seed (p.d - 1) 0) idx msg) idx))
      p.idxBytes p.n = hf.PRFidx skPrf idx from by
    unfold segment
    rw [drop_append_len0 _ _ (ullToBytes_length p.idxBytes idx),
      take_append_len _ _ hrlen]]
  rw [show (ullToBytes p.idxBytes idx ++ (hf.PRFidx skPrf idx ++
      mtSigLayers p hf skSeed seed p.d 0
        (hf.Hmsg (hf.PRFidx skPrf idx)
          (mtTreeRoot p hf skSeed seed (p.d - 1) 0) idx msg) idx)).drop
      (p.idxBytes + p.n) =
      mtSigLayers p hf skSeed seed p.d 0
        (hf.Hmsg (hf.PRFidx skPrf idx)
          (mtTreeRoot p hf skSeed seed (p.d - 1) 0) idx msg) idx ++ [] from by
    rw [← List.drop_drop,
      drop_append_len0 _ _ (ullToBytes_length p.idxBytes idx),
      drop_append_len0 _ _ hrlen, List.append_nil]]
  rw [mtVerifyGo_sigLayers p hf skSeed seed hl hw hpos h32 p.d 0 idx
    (hf.Hmsg (hf.PRFidx skPrf idx)
      (mtTreeRoot p hf skSeed seed (p.d - 1) 0) idx msg) []]
  rw [if_neg (by omega : ¬ p.d = 0)]
  have hshift : idx >>> (p.d * p.treeHeight) = 0 := by
    rw [Nat.shiftRight_eq_div_pow, ← hh]
    have hpow : 0 < 2 ^ p.h := pow_pos (by norm_num) _
    exact Nat.div_eq_of_lt (by omega)
  rw [hshift, Nat.zero_add]
  rw [ctMemcmp_self _ _ p.n (fun i _ => rfl)]
  simp

/-- A hash bundle with constant 32-byte outputs, used to instantiate the
roundtrip theorems at a concrete parameter set. -/
def hfConst32 : HashFns :=
  { F := fun _ _ _ => List.replicate 32 0
  , H := fun _ _ _ _ => List.replicate 32 0
  , Hmsg := fun _ _ _ _ => List.replicate 32 0
  , PRFkeygen := fun _ _ => List.replicate 32 0
  , PRFidx := fun _ _ => List.replicate 32 0 }

/-- The parameter set XMSS-SHA2_10_256 (OID 1) as `derive_params` builds
it. -/
def pC1 : Params :=
  { oid := 1, func := FUNC_SHA2, n := 32, w := 16, log2w := 4
    len1 := 64, len2 := 3, len := 67, h := 10, treeHeight := 10, d := 1
    padLen := 32, idxBytes := 4, idxMax := 1023
    sigBytes := 2500, pkBytes := 68, skBytes := 136 }

/-- The parameter set XMSSMT-SHA2_20/2_256 (RFC OID 1, internal OID
0x01000001) as `derive_params` builds it. -/
def pMtC1 : Params :=
  { oid := 0x01000001, func := FUNC_SHA2, n := 32, w := 16, log2w := 4
    len1 := 64, len2 := 3, len := 67, h := 20, treeHeight := 10, d := 2
    padLen := 32, idxBytes := 3, idxMax := 1048575
    sigBytes := 4963, pkBytes := 68, skBytes := 135 }

/-- C1: honest sign-then-verify returns Ok.  XMSS: for every supported
parameter set, key pair produced by `xmss_keygen` from successful entropy,
message and leaf index `k ≤ idx_max` reached by repeated signing,
`xmss_sign` succeeds (stepping the stored index from `k` to `k + 1`) and
`xmss_verify` accepts the emitted signature under the generated public
key.  XMSS-MT: for every supported parameter set and index
`idx ≤ idx_max`, `xmss_mt_verify` accepts the signature the honest signer
emits against the public key carrying the top-layer tree root. -/
theorem honest_sign_verify_ok :
    (∀ (oid : Nat) (p : Params) (hf : HashFns) (entropy msg : List Nat)
      (k : Nat),
      xmssParamsFromOid oid = some p → HashLens p hf →
      entropy.length = 3 * p.n → k ≤ p.idxMax →
      ∃ sig,
        xmssSign p hf msg (skWithIdx p (xmssKeygen p hf entropy).2 k) =
          (XMSS_OK, skWithIdx p (xmssKeygen p hf entropy).2 (k + 1),
            some sig) ∧
        xmssVerify p hf msg sig (xmssKeygen p hf entropy).1 = XMSS_OK) ∧
    (∀ (oid : Nat) (p : Params) (hf : HashFns)
      (skSeed skPrf seed msg : List Nat) (idx : Nat),
      xmssmtParamsFromOid oid = some p → HashLens p hf →
      seed.length = p.n → idx ≤ p.idxMax →
      mtVerify p hf msg
        (mtSigO p hf skSeed skPrf seed
          (mtTreeRoot p hf skSeed seed (p.d - 1) 0) msg idx)
        (ullToBytes 4 p.oid ++ mtTreeRoot p hf skSeed seed (p.d - 1) 0 ++
          seed) = XMSS_OK) := by
  constructor
  · intro oid p hf entropy msg k hp hl he hk
    obtain ⟨hgB, hd1⟩ := xmssParamsFromOid_good oid p hp
    obtain ⟨h321, hth32, hw, hlen, hdpos, hnpos, hmax, hfit, hdth⟩ :=
      goodParams_spec p hgB
    have h32 : p.h ≤ 32 := h321 hd1
    have hA : (entropy.take p.n).length = p.n := by
      rw [List.length_take, he]; omega
    have hB : (segment entropy p.n p.n).length = p.n := by
      unfold segment; rw [List.length_take, List.length_drop, he]; omega
    have hD : (segment entropy (2 * p.n) p.n).length = p.n := by
      unfold segment; rw [List.length_take, List.length_drop, he]; omega
    have hC : (treeNode p hf (entropy.take p.n)
        (segment entropy (2 * p.n) p.n) baseAdrs0 p.h 0).length = p.n :=
      treeNode_length p hf _ _ _ hl hlen _ _
    have hkmax : ¬ k > p.idxMax := by omega
    have hkfit : k < 256 ^ p.idxBytes := by omega
    rw [xmssKeygen_eq]
    dsimp only
    rw [skWithIdx_mkSk, skWithIdx_mkSk]
    exact ⟨xmssSigO p hf msg (entropy.take p.n) (segment entropy p.n p.n)
        (treeNode p hf (entropy.take p.n) (segment entropy (2 * p.n) p.n)
          baseAdrs0 p.h 0) (segment entropy (2 * p.n) p.n) k,
      xmssSign_mkSk p hf msg _ _ _ _ k hA hB hC hD hkmax hkfit,
      xmssVerify_sigO p hf msg _ _ _ _ k hl hA hD rfl hkmax hkfit hmax h32
        hw hlen⟩
  · intro oid p hf skSeed skPrf seed msg idx hp hl hseed hidx
    have hgB := xmssmtParamsFromOid_good oid p hp
    obtain ⟨_, hth32, hw, hlen, hdpos, hnpos, hmax, hfit, hdth⟩ :=
      goodParams_spec p hgB
    exact mtVerify_sigO p hf skSeed skPrf seed msg (ullToBytes 4 p.oid) idx
      hl hw hlen hth32 hdpos (ullToBytes_length 4 p.oid) hseed (by omega)
      (by omega) hmax hdth

set_option maxRecDepth 20000 in
/-- Witness for C1 at XMSS-SHA2_10_256 (index 0) and XMSSMT-SHA2_20/2_256
(index 0). -/
theorem honest_sign_verify_ok_witness :
    (∃ sig,
      xmssSign pC1 hfConst32 []
          (skWithIdx pC1 (xmssKeygen pC1 hfConst32 (List.replicate 96 0)).2 0) =
        (XMSS_OK,
          skWithIdx pC1 (xmssKeygen pC1 hfConst32 (List.replicate 96 0)).2
            (0 + 1), some sig) ∧
      xmssVerify pC1 hfConst32 [] sig
        (xmssKeygen pC1 hfConst32 (List.replicate 96 0)).1 = XMSS_OK) ∧
    mtVerify pMtC1 hfConst32 []
      (mtSigO pMtC1 hfConst32 [] [] (List.replicate 32 0)
        (mtTreeRoot pMtC1 hfConst32 [] (List.replicate 32 0) (pMtC1.d - 1) 0)
        [] 0)
      (ullToBytes 4 pMtC1.oid ++
        mtTreeRoot pMtC1 hfConst32 [] (List.replicate 32 0) (pMtC1.d - 1) 0 ++
        List.replicate 32 0) = XMSS_OK :=
  ⟨honest_sign_verify_ok.1 1 pC1 hfConst32 (List.replicate 96 0) [] 0
      (by decide)
      ⟨fun _ _ _ => rfl, fun _ _ _ _ => rfl, fun _ _ => rfl, fun _ _ => rfl⟩
      (by decide) (Nat.zero_le _),
   honest_sign_verify_ok.2 1 pMtC1 hfConst32 [] [] (List.replicate 32 0) [] 0
      (by decide)
      ⟨fun _ _ _ => rfl, fun _ _ _ _ => rfl, fun _ _ => rfl, fun _ _ => rfl⟩
      (by decide) (Nat.zero_le _)⟩

/-- The status and secret-key effect of `xmss_mt_sign` (impl/c/src/xmss_mt.c):
the index is read from the sk index field; on `idx > idx_max` the function
returns `XMSS_ERR_EXHAUSTED` before touching the signature buffer, the
secret key or the BDS state; otherwise it writes `idx + 1` back into the
index field and returns `XMSS_OK`.  (The emitted signature bytes and the
BDS state update are not part of this projection.) -/
def mtSignSkStatus (p : Params) (sk : List Nat) : Int × List Nat :=
  let idx := bytesToUll (segment sk 4 p.idxBytes)
  if idx > p.idxMax then (XMSS_ERR_EXHAUSTED, sk)
  else (XMSS_OK, skWithIdx p sk (idx + 1))

/-- `xmss_mt_remaining_sigs` (impl/c/src/xmss_mt.c). -/
def mtRemainingSigs (p : Params) (sk : List Nat) : Nat :=
  let idx := bytesToUll (segment sk 4 p.idxBytes)
  if idx > p.idxMax then 0 else p.idxMax - idx + 1

/-- C2: `compute_root` walks the auth path exactly as the spec words it (at
each level the current node is the left or right child selected by the
current bit of `idx`, with the sibling read from `auth` at that level): the
XMSS `compute_root` of treehash.c walks `p.h` levels (= tree_height for
d = 1) and the MT variant walks `p.treeHeight` levels and consumes only the
first `tree_height` auth nodes; for every table-derived parameter set
`tree_height = h / d`. -/
theorem compute_root_walks_tree_height :
    (∀ (p : Params) (hf : HashFns) (seed : List Nat) (base : Adrs)
       (leaf : List Nat) (idx : Nat) (auth : List (List Nat)),
       computeRoot p hf seed base leaf idx auth =
         authWalkSpec hf seed base p.h leaf idx auth) ∧
    (∀ (p : Params) (hf : HashFns) (seed : List Nat) (base : Adrs)
       (leaf : List Nat) (idx : Nat) (auth : List (List Nat)),
       computeRootMT p hf seed base leaf idx auth =
         authWalkSpec hf seed base p.treeHeight leaf idx auth) ∧
    (∀ (p : Params) (hf : HashFns) (seed : List Nat) (base : Adrs)
       (leaf : List Nat) (idx : Nat) (auth : List (List Nat)),
       computeRootMT p hf seed base leaf idx (auth.take p.treeHeight) =
         computeRootMT p hf seed base leaf idx auth) ∧
    (∀ (oid : Nat) (p : Params),
       xmssParamsFromOid oid = some p ∨ xmssmtParamsFromOid oid = some p →
       p.treeHeight = p.h / p.d) := by
  refine ⟨?_, ?_, ?_, ?_⟩
  · intro p hf seed base leaf idx auth
    unfold computeRoot authWalkSpec
    have h := computeRootGo_eq_authWalkSpecGo hf seed base auth idx p.h 0 leaf
    rw [Nat.shiftRight_zero] at h
    exact h
  · intro p hf seed base leaf idx auth
    unfold computeRootMT authWalkSpec
    have h := computeRootGo_eq_authWalkSpecGo hf seed base auth idx
      p.treeHeight 0 leaf
    rw [Nat.shiftRight_zero] at h
    exact h
  · intro p hf seed base leaf idx auth
    unfold computeRootMT
    have h := computeRootGo_take hf seed base auth p.treeHeight 0 leaf idx
    rw [Nat.zero_add] at h
    exact h
  · intro oid p hp
    have hgB : goodParamsB p = true := by
      rcases hp with hx | hmt
      · exact (xmssParamsFromOid_good oid p hx).1
      · exact xmssmtParamsFromOid_good oid p hmt
    obtain ⟨_, _, _, _, hdpos, _, _, _, hdth⟩ := goodParams_spec p hgB
    rw [hdth]
    exact (Nat.mul_div_cancel_left p.treeHeight hdpos).symm

/-- Witness for C2 at XMSS-SHA2_10_256. -/
theorem compute_root_walks_tree_height_witness :
    pC1.treeHeight = pC1.h / pC1.d :=
  compute_root_walks_tree_height.2.2.2 1 pC1 (Or.inl (by decide))

/-- C6: `sign` returns `Exhausted` iff the index read from the secret key
on entry exceeds `idx_max`, and in that case returns with the secret key
(and the caller's signature buffer) untouched - for `xmss_sign` and for the
shared early path of `xmss_mt_sign`. -/
theorem sign_exhausted_iff (p : Params) (hf : HashFns) (msg sk : List Nat) :
    ((xmssSign p hf msg sk).1 = XMSS_ERR_EXHAUSTED ↔
      bytesToUll (segment sk 4 p.idxBytes) > p.idxMax) ∧
    (bytesToUll (segment sk 4 p.idxBytes) > p.idxMax →
      xmssSign p hf msg sk = (XMSS_ERR_EXHAUSTED, sk, none)) ∧
    ((mtSignSkStatus p sk).1 = XMSS_ERR_EXHAUSTED ↔
      bytesToUll (segment sk 4 p.idxBytes) > p.idxMax) ∧
    (bytesToUll (segment sk 4 p.idxBytes) > p.idxMax →
      mtSignSkStatus p sk = (XMSS_ERR_EXHAUSTED, sk)) := by
  by_cases h : bytesToUll (segment sk 4 p.idxBytes) > p.idxMax
  · unfold xmssSign mtSignSkStatus
    simp [h]
  · unfold xmssSign mtSignSkStatus
    simp [h, XMSS_OK, XMSS_ERR_EXHAUSTED]

/-- Witness for C6: an exhausted XMSS-SHA2_10_256 key (stored index 2000 >
idx_max = 1023) is rejected with the secret key unchanged. -/
theorem sign_exhausted_iff_witness :
    xmssSign pC1 hfConst32 [] (mkSk pC1 2000 [] [] [] []) =
      (XMSS_ERR_EXHAUSTED, mkSk pC1 2000 [] [] [] [], none) ∧
    mtSignSkStatus pC1 (mkSk pC1 2000 [] [] [] []) =
      (XMSS_ERR_EXHAUSTED, mkSk pC1 2000 [] [] [] []) :=
  ⟨(sign_exhausted_iff pC1 hfConst32 [] (mkSk pC1 2000 [] [] [] [])).2.1
      (by decide),
   (sign_exhausted_iff pC1 hfConst32 [] (mkSk pC1 2000 [] [] [] [])).2.2.2
      (by decide)⟩

/-- The parameter set XMSSMT-SHA2_40/2_256 (RFC OID 3, internal OID
0x01000003) as `derive_params` builds it: `h = 40`, `idx_bytes = 5`. -/
def pMt40 : Params :=
  { oid := 0x01000003, func := FUNC_SHA2, n := 32, w := 16, log2w := 4
    len1 := 64, len2 := 3, len := 67, h := 40, treeHeight := 20, d := 2
    padLen := 32, idxBytes := 5, idxMax := 1099511627775
    sigBytes := 5605, pkBytes := 68, skBytes := 137 }

set_option maxRecDepth 20000 in
/-- C7 (refuted): the stored index is NOT always advanced by exactly 1.
For XMSSMT-SHA2_40/2_256 (`idx_max = 2^40 - 1`, `idx_bytes = 5`), signing
at the last valid index succeeds but `ull_to_bytes` truncates `idx + 1 =
2^40` to 5 bytes, wrapping the stored index to 0; `remaining_sigs` then
reports `idx_max + 1` fresh signatures on a fully exhausted key instead
of 0. -/
theorem sign_index_wrap_bug :
    xmssmtParamsFromOid 3 = some pMt40 ∧
    (mtSignSkStatus pMt40 (mkSk pMt40 pMt40.idxMax [] [] [] [])).1 =
      XMSS_OK ∧
    bytesToUll (segment
      (mtSignSkStatus pMt40 (mkSk pMt40 pMt40.idxMax [] [] [] [])).2
      4 pMt40.idxBytes) = 0 ∧
    mtRemainingSigs pMt40
      (mtSignSkStatus pMt40 (mkSk pMt40 pMt40.idxMax [] [] [] [])).2 =
      pMt40.idxMax + 1 := by
  refine ⟨by decide, by decide, by decide, by decide⟩

/-- C10: `l_tree` reduces the WOTS+ public key in place: the caller's
buffer keeps its `len` elements but is overwritten - each level step
writes the pair-hash of elements `2i` and `2i+1` into element `i`, and on
return the first element holds the computed leaf (the returned root) - so
the WOTS+ public key passed in is destroyed. -/
theorem l_tree_in_place (p : Params) (hf : HashFns) (seed : List Nat)
    (a : Adrs) (buf : List (List Nat)) (hl : HashLens p hf)
    (hbuf : ∀ x ∈ buf, x.length = p.n) (hlen : buf.length = p.len) :
    (lTree p hf seed a buf).2.length = p.len ∧
    (lTree p hf seed a buf).2.getD 0 [] = (lTree p hf seed a buf).1 ∧
    (∀ len height i, i < len / 2 →
      (lTreeLevel p hf seed a buf len height).getD i [] =
        hf.H seed ((a.setTreeHeight height).setTreeIndex i)
          (buf.getD (2 * i) []) (buf.getD (2 * i + 1) [])) := by
  refine ⟨?_, rfl, ?_⟩
  · unfold lTree
    rw [(lTreeGo_length_facts p hf seed a hl p.len buf p.len 0
      (by omega) hbuf).1, hlen]
  · intro len height i hi
    unfold lTreeLevel
    have hbase : (((List.range (len / 2)).map (fun i =>
        hf.H seed ((a.setTreeHeight height).setTreeIndex i)
          (buf.getD (2 * i) []) (buf.getD (2 * i + 1) [])))
        ++ buf.drop (len / 2)).getD i [] =
        hf.H seed ((a.setTreeHeight height).setTreeIndex i)
          (buf.getD (2 * i) []) (buf.getD (2 * i + 1) []) := by
      rw [List.getD_append _ _ _ _ (by simpa using hi), mapRange_getD,
        if_pos hi]
    by_cases hodd : len % 2 = 1
    · rw [if_pos hodd]
      rw [List.getD_eq_getElem?_getD, List.getElem?_set_ne (by omega)]
      rw [← List.getD_eq_getElem?_getD]
      exact hbase
    · rw [if_neg hodd]
      exact hbase

/-- Witness for C10 with a two-element buffer at XMSS-SHA2_10_256: the
pair-hash characterisation applies at `i = 0`. -/
theorem l_tree_in_place_witness :
    (lTree pC1 hfConst32 [] Adrs.zero
        (List.replicate pC1.len (List.replicate 32 0))).2.length = pC1.len :=
  (l_tree_in_place pC1 hfConst32 [] Adrs.zero
    (List.replicate pC1.len (List.replicate 32 0))
    ⟨fun _ _ _ => rfl, fun _ _ _ _ => rfl, fun _ _ => rfl, fun _ _ => rfl⟩
    (fun x hx => by
      rw [List.eq_of_mem_replicate hx]
      rfl)
    (List.length_replicate _ _)).1

/-! ## bds.c : bds_treehash_init (the full-tree build with BDS captures)

`bds_treehash_init` runs the same push/merge stack machine as `treehash`
(src/src/treehash.c) over all leaves starting at 0, and additionally
captures, at each merge, the right sibling into the BDS auth array, a
treehash instance seed node, or a retain node.  The copy in src/src/bds.c
iterates `1 << p->h` leaves (in that build tree_height = h); the impl/c
copy used by `xmss_mt_keygen` is not in the source tree - per the spec the
per-layer build is the same machine over `2 ^ tree_height` leaves, so the
machine below is parameterised by the tree height `H`. -/

/-- Point update of a capture map. -/
def updMap (f : Nat → List Nat) (k : Nat) (v : List Nat) : Nat → List Nat :=
  fun j => if j = k then v else f j

/-- The build stack (top first, entries `(node, level)`) together with the
captured BDS entries. -/
structure BdsInitAcc where
  stack : List (List Nat × Nat)
  auth : Nat → List Nat
  thNode : Nat → List Nat
  retain : Nat → List Nat

/-- The merge-while loop of `bds_treehash_init`, fuel-counted: while the
top two stack entries have equal level, capture the right sibling (auth if
`(i >> nodeh) == 1`, treehash seed if `nodeh < H - bds_k` and
`(i >> nodeh) == 3`, retain if `nodeh >= H - bds_k`; uint32 arithmetic on
the retain offset as in the source), then H-merge into the lower slot. -/
def bdsInitMerge (p : Params) (hf : HashFns) (seed : List Nat) (base : Adrs)
    (H bdsK idx : Nat) : Nat → BdsInitAcc → BdsInitAcc
  | 0, acc => acc
  | fuel + 1, acc =>
    match acc.stack with
    | (top, lt) :: (snd, ls) :: rest =>
      if lt = ls then
        let auth1 := if idx >>> lt = 1 then updMap acc.auth lt top else acc.auth
        let thn1 := if ¬ idx >>> lt = 1 ∧ lt < H - bdsK ∧ idx >>> lt = 3 then
            updMap acc.thNode lt top else acc.thNode
        let ret1 := if ¬ idx >>> lt = 1 ∧ ¬ (lt < H - bdsK ∧ idx >>> lt = 3) ∧
            H - bdsK ≤ lt then
            updMap acc.retain
              (((2 ^ (H - 1 - lt) + lt + 2 ^ 32 - H) % 2 ^ 32 +
                ((((idx >>> lt) + 2 ^ 32 - 3) % 2 ^ 32) >>> 1)) % 2 ^ 32) top
          else acc.retain
        bdsInitMerge p hf seed base H bdsK idx fuel
          ⟨(mergeNode hf seed base lt (idx >>> (lt + 1)) snd top, lt + 1) :: rest,
            auth1, thn1, ret1⟩
      else acc
    | _ => acc

/-- One leaf iteration of `bds_treehash_init`: generate the leaf, push it
at level 0 and run the merge loop (the stack depth after the push bounds
the number of merges). -/
def bdsInitStep (p : Params) (hf : HashFns) (skSeed seed : List Nat)
    (base : Adrs) (H bdsK : Nat) (acc : BdsInitAcc) (idx : Nat) : BdsInitAcc :=
  bdsInitMerge p hf seed base H bdsK idx (acc.stack.length + 1)
    ⟨(leafCalc p hf skSeed seed base idx, 0) :: acc.stack,
      acc.auth, acc.thNode, acc.retain⟩

/-- The zeroed state `bds_treehash_init` starts from (`memset 0` by the
caller): empty stack, all capture entries `n` zero bytes. -/
def bdsInitZero (p : Params) : BdsInitAcc :=
  ⟨[], fun _ => List.replicate p.n 0, fun _ => List.replicate p.n 0,
    fun _ => List.replicate p.n 0⟩

/-- `bds_treehash_init` over the `2 ^ H` leaves of one tree: returns the
root (the bottom stack slot) and the final capture state. -/
def bdsTreehashInit (p : Params) (hf : HashFns) (skSeed seed : List Nat)
    (base : Adrs) (H bdsK : Nat) : List Nat × BdsInitAcc :=
  let fin := (List.range (2 ^ H)).foldl
    (bdsInitStep p hf skSeed seed base H bdsK) (bdsInitZero p)
  ((fin.stack.getLastD ([], 0)).1, fin)

/-- Leaves accounted for by a build stack: each level-`ℓ` entry covers
`2 ^ ℓ` leaves. -/
def stackLeaves (st : List (List Nat × Nat)) : Nat :=
  (st.map (fun e => 2 ^ e.2)).sum

theorem thMergeLoop_stackLeaves (hf : HashFns) (seed : List Nat) (base : Adrs)
    (s idx : Nat) :
    ∀ (st : List (List Nat × Nat)) (node : List Nat) (nh : Nat),
      stackLeaves (thMergeLoop hf seed base s idx st node nh) =
        2 ^ nh + stackLeaves st := by
  intro st
  induction st with
  | nil =>
      intro node nh
      simp [thMergeLoop, stackLeaves]
  | cons e rest ih =>
      intro node nh
      obtain ⟨below, belowH⟩ := e
      rw [thMergeLoop]
      by_cases hb : belowH = nh
      · rw [if_pos hb, ih]
        subst hb
        simp [stackLeaves]
        ring
      · rw [if_neg hb]
        simp [stackLeaves]

/-- The stack evolution of the decorated merge loop is the plain
`thMergeLoop` of `treehash` with start leaf 0. -/
theorem bdsInitMerge_stack (p : Params) (hf : HashFns) (seed : List Nat)
    (base : Adrs) (H bdsK idx : Nat) :
    ∀ (fuel : Nat) (st : List (List Nat × Nat)) (node : List Nat) (nh : Nat)
      (auth thn ret : Nat → List Nat), st.length < fuel →
      (bdsInitMerge p hf seed base H bdsK idx fuel
        ⟨(node, nh) :: st, auth, thn, ret⟩).stack =
        thMergeLoop hf seed base 0 idx st node nh := by
  intro fuel
  induction fuel with
  | zero => intro st node nh auth thn ret h; omega
  | succ f ih =>
      intro st node nh auth thn ret h
      match st with
      | [] =>
          rw [bdsInitMerge, thMergeLoop]
      | (snd, ls) :: rest =>
          rw [bdsInitMerge, thMergeLoop]
          dsimp only
          by_cases hb : ls = nh
          · rw [if_pos (hb.symm), if_pos hb]
            rw [ih rest _ (nh + 1) _ _ _ (by simp at h; omega)]
            subst hb
            congr 2
            simp [Nat.zero_shiftRight]
          · rw [if_neg (fun hx => hb hx.symm), if_neg hb]

/-- The merge loop never touches capture entries at or above the tree
height, and with `bds_k = 0` never touches retain at all, as long as the
stack accounts for at most `2 ^ H` leaves. -/
theorem bdsInitMerge_frame (p : Params) (hf : HashFns) (seed : List Nat)
    (base : Adrs) (H bdsK idx : Nat) :
    ∀ (fuel : Nat) (acc : BdsInitAcc), stackLeaves acc.stack ≤ 2 ^ H →
      (∀ j, H ≤ j →
        (bdsInitMerge p hf seed base H bdsK idx fuel acc).auth j = acc.auth j ∧
        (bdsInitMerge p hf seed base H bdsK idx fuel acc).thNode j =
          acc.thNode j) ∧
      (bdsK = 0 → ∀ k,
        (bdsInitMerge p hf seed base H bdsK idx fuel acc).retain k =
          acc.retain k) := by
  intro fuel
  induction fuel with
  | zero =>
      intro acc hle
      exact ⟨fun j _ => ⟨rfl, rfl⟩, fun _ _ => rfl⟩
  | succ f ih =>
      intro acc hle
      obtain ⟨st, auth, thn, ret⟩ := acc
      match hst : st with
      | [] => rw [bdsInitMerge]; exact ⟨fun j _ => ⟨rfl, rfl⟩, fun _ _ => rfl⟩
      | [e] => rw [bdsInitMerge]; exact ⟨fun j _ => ⟨rfl, rfl⟩, fun _ _ => rfl⟩
      | (top, lt) :: (snd, ls) :: rest =>
          rw [bdsInitMerge]
          dsimp only
          by_cases hb : lt = ls
          · rw [if_pos hb]
            have hsum : stackLeaves ((top, lt) :: (snd, ls) :: rest) =
                2 ^ lt + 2 ^ ls + stackLeaves rest := by
              simp [stackLeaves]
              ring
            have hlt : lt + 1 ≤ H := by
              have h2 : 2 ^ (lt + 1) ≤ 2 ^ H := by
                rw [hsum] at hle
                subst hb
                have : 2 ^ (lt + 1) = 2 ^ lt + 2 ^ lt := by ring
                omega
              exact (Nat.pow_le_pow_iff_right (by norm_num)).mp h2
            have hnext : stackLeaves
                ((mergeNode hf seed base lt (idx >>> (lt + 1)) snd top,
                  lt + 1) :: rest) ≤ 2 ^ H := by
              have : stackLeaves ((mergeNode hf seed base lt (idx >>> (lt + 1))
                  snd top, lt + 1) :: rest) =
                  2 ^ (lt + 1) + stackLeaves rest := by
                simp [stackLeaves]
              rw [this]
              rw [hsum] at hle
              subst hb
              have h2 : 2 ^ (lt + 1) = 2 ^ lt + 2 ^ lt := by ring
              omega
            have hrec := ih ⟨(mergeNode hf seed base lt (idx >>> (lt + 1))
                snd top, lt + 1) :: rest,
              (if idx >>> lt = 1 then updMap auth lt top else auth),
              (if ¬ idx >>> lt = 1 ∧ lt < H - bdsK ∧ idx >>> lt = 3 then
                updMap thn lt top else thn),
              (if ¬ idx >>> lt = 1 ∧ ¬ (lt < H - bdsK ∧ idx >>> lt = 3) ∧
                  H - bdsK ≤ lt then
                updMap ret
                  (((2 ^ (H - 1 - lt) + lt + 2 ^ 32 - H) % 2 ^ 32 +
                    ((((idx >>> lt) + 2 ^ 32 - 3) % 2 ^ 32) >>> 1)) % 2 ^ 32) top
              else ret)⟩ hnext
            refine ⟨fun j hj => ?_, fun hk0 k => ?_⟩
            · obtain ⟨ha, ht⟩ := hrec.1 j hj
              rw [ha, ht]
              dsimp only
              constructor
              · by_cases hc : idx >>> lt = 1
                · simp only [if_pos hc, updMap]
                  rw [if_neg (by omega : ¬ j = lt)]
                · simp only [if_neg hc]
              · by_cases hc : ¬ idx >>> lt = 1 ∧ lt < H - bdsK ∧ idx >>> lt = 3
                · simp only [if_pos hc, updMap]
                  rw [if_neg (by omega : ¬ j = lt)]
                · simp only [if_neg hc]
            · rw [hrec.2 hk0 k]
              dsimp only
              have hc : ¬ (¬ idx >>> lt = 1 ∧
                  ¬ (lt < H - bdsK ∧ idx >>> lt = 3) ∧ H - bdsK ≤ lt) := by
                intro hcon
                subst hk0
                omega
              rw [if_neg hc]
          · rw [if_neg hb]
            exact ⟨fun j _ => ⟨rfl, rfl⟩, fun _ _ => rfl⟩

/-- Invariant of the `bds_treehash_init` leaf loop: the stack is the plain
`treehash` stack, it accounts for exactly the processed leaves, and no
capture entry at or above the tree height has been touched. -/
theorem bdsInit_fold_inv (p : Params) (hf : HashFns) (skSeed seed : List Nat)
    (base : Adrs) (H bdsK : Nat) :
    ∀ t, t ≤ 2 ^ H →
      ((List.range t).foldl (bdsInitStep p hf skSeed seed base H bdsK)
          (bdsInitZero p)).stack =
        thProcess p hf skSeed seed base 0 0 t [] ∧
      stackLeaves ((List.range t).foldl
          (bdsInitStep p hf skSeed seed base H bdsK) (bdsInitZero p)).stack = t ∧
      (∀ j, H ≤ j →
        ((List.range t).foldl (bdsInitStep p hf skSeed seed base H bdsK)
            (bdsInitZero p)).auth j = List.replicate p.n 0 ∧
        ((List.range t).foldl (bdsInitStep p hf skSeed seed base H bdsK)
            (bdsInitZero p)).thNode j = List.replicate p.n 0) ∧
      (bdsK = 0 → ∀ k,
        ((List.range t).foldl (bdsInitStep p hf skSeed seed base H bdsK)
            (bdsInitZero p)).retain k = List.replicate p.n 0) := by
  intro t
  induction t with
  | zero =>
      intro _
      refine ⟨rfl, rfl, fun j _ => ⟨rfl, rfl⟩, fun _ _ => rfl⟩
  | succ t ih =>
      intro hle
      obtain ⟨hs, hc, hfr, hrt⟩ := ih (by omega)
      rw [List.range_succ, List.foldl_append]
      have h1 : List.foldl (bdsInitStep p hf skSeed seed base H bdsK)
          ((List.range t).foldl (bdsInitStep p hf skSeed seed base H bdsK)
            (bdsInitZero p)) [t] =
          bdsInitStep p hf skSeed seed base H bdsK
            ((List.range t).foldl (bdsInitStep p hf skSeed seed base H bdsK)
              (bdsInitZero p)) t := rfl
      rw [h1]
      set A := (List.range t).foldl (bdsInitStep p hf skSeed seed base H bdsK)
        (bdsInitZero p) with hA
      have hstep : bdsInitStep p hf skSeed seed base H bdsK A t =
          bdsInitMerge p hf seed base H bdsK t (A.stack.length + 1)
            ⟨(leafCalc p hf skSeed seed base t, 0) :: A.stack,
              A.auth, A.thNode, A.retain⟩ := rfl
      have hstack : (bdsInitStep p hf skSeed seed base H bdsK A t).stack =
          thMergeLoop hf seed base 0 t A.stack
            (leafCalc p hf skSeed seed base t) 0 := by
        rw [hstep]
        exact bdsInitMerge_stack p hf seed base H bdsK t _ A.stack _ 0
          A.auth A.thNode A.retain (by omega)
      have hleaves1 : stackLeaves ((leafCalc p hf skSeed seed base t, 0) ::
          A.stack) = 1 + t := by
        have hc2 : (A.stack.map (fun e => 2 ^ e.2)).sum = t := hc
        unfold stackLeaves
        rw [List.map_cons, List.sum_cons, hc2, pow_zero]
      have hframe := bdsInitMerge_frame p hf seed base H bdsK t
        (A.stack.length + 1)
        ⟨(leafCalc p hf skSeed seed base t, 0) :: A.stack,
          A.auth, A.thNode, A.retain⟩
        (by rw [show (⟨(leafCalc p hf skSeed seed base t, 0) :: A.stack,
          A.auth, A.thNode, A.retain⟩ : BdsInitAcc).stack =
            (leafCalc p hf skSeed seed base t, 0) :: A.stack from rfl,
          hleaves1]; omega)
      refine ⟨?_, ?_, ?_, ?_⟩
      · rw [hstack, hs]
        rw [thProcess_add p hf skSeed seed base 0 0 t 1]
        unfold thProcess
        have hr1 : List.range 1 = [0] := rfl
        rw [hr1]
        simp only [List.foldl_cons, List.foldl_nil]
        unfold thStep
        rw [Nat.zero_add, Nat.add_zero]
      · rw [hstack, thMergeLoop_stackLeaves, hc]
        simp
        omega
      · intro j hj
        obtain ⟨ha, ht⟩ := hframe.1 j hj
        rw [hstep]
        rw [ha, ht]
        exact hfr j hj
      · intro hk0 k
        rw [hstep, hframe.2 hk0 k]
        exact hrt hk0 k

/-- C3: the per-layer tree build of `bds_treehash_init` (as invoked per
layer by `xmss_mt_keygen`; the build is the machine over `2 ^ tree_height`
leaves, `tree_height = h / d`) produces the root of the height-tree_height
Merkle tree of that layer address, and populates auth and treehash node
entries only for heights below tree_height (and, with `bds_k = 0`, no
retain entries at all): entries at or above tree_height stay zero. -/
theorem bds_treehash_init_tree_height (p : Params) (hf : HashFns)
    (skSeed seed : List Nat) (base : Adrs) (bdsK : Nat) :
    (bdsTreehashInit p hf skSeed seed base p.treeHeight bdsK).1 =
      treeNode p hf skSeed seed base p.treeHeight 0 ∧
    (∀ j, p.treeHeight ≤ j →
      (bdsTreehashInit p hf skSeed seed base p.treeHeight bdsK).2.auth j =
        List.replicate p.n 0 ∧
      (bdsTreehashInit p hf skSeed seed base p.treeHeight bdsK).2.thNode j =
        List.replicate p.n 0) ∧
    (bdsK = 0 → ∀ k,
      (bdsTreehashInit p hf skSeed seed base p.treeHeight bdsK).2.retain k =
        List.replicate p.n 0) := by
  obtain ⟨hs, _, hfr, hrt⟩ := bdsInit_fold_inv p hf skSeed seed base
    p.treeHeight bdsK (2 ^ p.treeHeight) le_rfl
  refine ⟨?_, ?_, ?_⟩
  · show (((List.range (2 ^ p.treeHeight)).foldl
        (bdsInitStep p hf skSeed seed base p.treeHeight bdsK)
        (bdsInitZero p)).stack.getLastD ([], 0)).1 = _
    rw [hs]
    have : ((thProcess p hf skSeed seed base 0 0 (2 ^ p.treeHeight)
        []).getLastD ([], 0)).1 =
        treehash p hf skSeed seed 0 (2 ^ p.treeHeight) base := rfl
    rw [this, treehash_root p hf skSeed seed base 0 p.treeHeight (dvd_zero _),
      Nat.zero_div]
  · exact hfr
  · exact hrt

/-- `xmss_mt_keygen` (impl/c/src/xmss_mt.c), projected to status, public
key and secret key (the BDS states and cached WOTS signatures it also
fills are not part of this projection; on a parameter failure the caller
buffers are untouched, written `[]`).  The per-layer builds use
`bds_treehash_init`; the serialised layouts are
`PK = OID(4) || root || SEED` and
`SK = OID(4) || idx(idx_bytes) || SK_SEED || SK_PRF || root || SEED`, with
the 4-byte OID field written from `p->oid` by `ull_to_bytes`. -/
def mtKeygen (p : Params) (hf : HashFns) (entropy : List Nat) (bdsK : Nat) :
    Int × List Nat × List Nat :=
  if p.d < 2 || p.d > 12 then (XMSS_ERR_PARAMS, [], [])
  else if bdsK &&& 1 ≠ 0 || bdsK > p.treeHeight then (XMSS_ERR_PARAMS, [], [])
  else
    let skSeed := entropy.take p.n
    let skPrf := segment entropy p.n p.n
    let seed := segment entropy (2 * p.n) p.n
    let root := (bdsTreehashInit p hf skSeed seed (mtBase (p.d - 1) 0)
      p.treeHeight bdsK).1
    (XMSS_OK,
     ullToBytes 4 p.oid ++ root ++ seed,
     mkSk p 0 skSeed skPrf root seed)

/-- C9 (refuted): the serialised XMSS-MT public and secret keys carry the
internal namespaced OID, not the RFC-numeric OID.  For RFC OID 1
(XMSSMT-SHA2_20/2_256) the table stores the internal OID 0x01000001 and
`xmss_mt_keygen` writes exactly that value into the 4-byte OID field of
both pk and sk, which differs from the RFC encoding `toByte(1, 4)`. -/
theorem mt_keygen_serializes_internal_oid :
    xmssmtParamsFromOid 1 = some pMtC1 ∧
    pMtC1.oid = 0x01000001 ∧
    (mtKeygen pMtC1 hfConst32 (List.replicate 96 0) 0).1 = XMSS_OK ∧
    (mtKeygen pMtC1 hfConst32 (List.replicate 96 0) 0).2.1.take 4 =
      ullToBytes 4 0x01000001 ∧
    (mtKeygen pMtC1 hfConst32 (List.replicate 96 0) 0).2.2.take 4 =
      ullToBytes 4 0x01000001 ∧
    ullToBytes 4 0x01000001 ≠ ullToBytes 4 1 := by
  refine ⟨by decide, by decide, rfl, ?_, ?_, by decide⟩
  · have h : (mtKeygen pMtC1 hfConst32 (List.replicate 96 0) 0).2.1 =
        ullToBytes 4 pMtC1.oid ++
        (bdsTreehashInit pMtC1 hfConst32 ((List.replicate 96 0).take pMtC1.n)
          (segment (List.replicate 96 0) (2 * pMtC1.n) pMtC1.n)
          (mtBase (pMtC1.d - 1) 0) pMtC1.treeHeight 0).1 ++
        segment (List.replicate 96 0) (2 * pMtC1.n) pMtC1.n := rfl
    rw [h, List.append_assoc, take_append_len _ _ (ullToBytes_length 4 _)]
    rfl
  · have h : (mtKeygen pMtC1 hfConst32 (List.replicate 96 0) 0).2.2 =
        mkSk pMtC1 0 ((List.replicate 96 0).take pMtC1.n)
          (segment (List.replicate 96 0) pMtC1.n pMtC1.n)
          (bdsTreehashInit pMtC1 hfConst32 ((List.replicate 96 0).take pMtC1.n)
            (segment (List.replicate 96 0) (2 * pMtC1.n) pMtC1.n)
            (mtBase (pMtC1.d - 1) 0) pMtC1.treeHeight 0).1
          (segment (List.replicate 96 0) (2 * pMtC1.n) pMtC1.n) := rfl
    rw [h, mkSk_take4]
    rfl

/-! ## bds_serialize.c : BDS state serialisation -/

/-- `retain_count` from bds_serialize.c. -/
def retainCount (bdsK : Nat) : Nat :=
  if bdsK = 0 then 0 else 2 ^ bdsK - bdsK - 1

/-- `xmss_bds_state` (xmss.h), with each fixed-size array modelled as a
map from index to entry; indices beyond the serialised range hold the
zeroed values `memset 0` leaves there. -/
structure BdsState where
  auth : Nat → List Nat
  keep : Nat → List Nat
  stack : Nat → List Nat
  stackLevels : Nat → Nat
  stackOffset : Nat
  thNode : Nat → List Nat
  thH : Nat → Nat
  thNextIdx : Nat → Nat
  thStackUsage : Nat → Nat
  thCompleted : Nat → Nat
  retain : Nat → List Nat
  nextLeaf : Nat

/-- `xmss_bds_serialized_size` from bds_serialize.c. -/
def xmssBdsSerializedSize (p : Params) (bdsK : Nat) : Nat :=
  p.h * p.n + (p.h / 2) * p.n + (p.h + 1) * p.n + (p.h + 1) + 4 +
  (p.h - bdsK) * (p.n + 4 + 4 + 1 + 1) + retainCount bdsK * p.n + 4

/-- One serialised treehash instance:
`node || h(4) || next_idx(4) || stack_usage(1) || completed(1)`. -/
def thInstBytes (st : BdsState) (i : Nat) : List Nat :=
  st.thNode i ++ ullToBytes 4 (st.thH i) ++ ullToBytes 4 (st.thNextIdx i) ++
  [st.thStackUsage i] ++ [st.thCompleted i]

/-- `xmss_bds_serialize` from bds_serialize.c: auth, keep, stack nodes,
stack levels, stack_offset, treehash instances, retain, next_leaf. -/
def xmssBdsSerialize (p : Params) (st : BdsState) (bdsK : Nat) : List Nat :=
  ((List.range p.h).map st.auth).flatten ++
  (((List.range (p.h / 2)).map st.keep).flatten ++
  (((List.range (p.h + 1)).map st.stack).flatten ++
  ((List.range (p.h + 1)).map st.stackLevels ++
  (ullToBytes 4 st.stackOffset ++
  (((List.range (p.h - bdsK)).map (thInstBytes st)).flatten ++
  (((List.range (retainCount bdsK)).map st.retain).flatten ++
  ullToBytes 4 st.nextLeaf))))))

/-- `xmss_bds_deserialize` from bds_serialize.c: reads the same layout back;
the initial `memset 0` leaves out-of-range entries zeroed. -/
def xmssBdsDeserialize (p : Params) (buf : List Nat) (bdsK : Nat) : BdsState :=
  let n := p.n
  let h := p.h
  let thc := h - bdsK
  let rc := retainCount bdsK
  let keepOff := h * n
  let stackOff := keepOff + (h / 2) * n
  let levelsOff := stackOff + (h + 1) * n
  let soOff := levelsOff + (h + 1)
  let thOff := soOff + 4
  let retOff := thOff + thc * (n + 10)
  let nlOff := retOff + rc * n
  { auth := fun i => if i < h then segment buf (i * n) n
      else List.replicate n 0
  , keep := fun i => if i < h / 2 then segment buf (keepOff + i * n) n
      else List.replicate n 0
  , stack := fun i => if i < h + 1 then segment buf (stackOff + i * n) n
      else List.replicate n 0
  , stackLevels := fun i => if i < h + 1 then buf.getD (levelsOff + i) 0 else 0
  , stackOffset := bytesToUll (segment buf soOff 4)
  , thNode := fun i => if i < thc then segment buf (thOff + i * (n + 10)) n
      else List.replicate n 0
  , thH := fun i => if i < thc then
      bytesToUll (segment buf (thOff + i * (n + 10) + n) 4) else 0
  , thNextIdx := fun i => if i < thc then
      bytesToUll (segment buf (thOff + i * (n + 10) + n + 4) 4) else 0
  , thStackUsage := fun i => if i < thc then
      buf.getD (thOff + i * (n + 10) + n + 8) 0 else 0
  , thCompleted := fun i => if i < thc then
      buf.getD (thOff + i * (n + 10) + n + 9) 0 else 0
  , retain := fun i => if i < rc then segment buf (retOff + i * n) n
      else List.replicate n 0
  , nextLeaf := bytesToUll (segment buf nlOff 4) }

/-- A BDS state a C `xmss_bds_state` can actually denote: in-range entries
have their serialised widths, out-of-range entries hold the zeroed
defaults, scalars fit their integer types. -/
def bdsStateWF (p : Params) (st : BdsState) (bdsK : Nat) : Prop :=
  (∀ i, (i < p.h → (st.auth i).length = p.n) ∧
    (p.h ≤ i → st.auth i = List.replicate p.n 0)) ∧
  (∀ i, (i < p.h / 2 → (st.keep i).length = p.n) ∧
    (p.h / 2 ≤ i → st.keep i = List.replicate p.n 0)) ∧
  (∀ i, (i < p.h + 1 → (st.stack i).length = p.n) ∧
    (p.h + 1 ≤ i → st.stack i = List.replicate p.n 0)) ∧
  (∀ i, (i < p.h + 1 → st.stackLevels i < 256) ∧
    (p.h + 1 ≤ i → st.stackLevels i = 0)) ∧
  st.stackOffset < 2 ^ 32 ∧
  (∀ i, (i < p.h - bdsK → (st.thNode i).length = p.n ∧ st.thH i < 2 ^ 32 ∧
      st.thNextIdx i < 2 ^ 32 ∧ st.thStackUsage i < 256 ∧
      st.thCompleted i < 256) ∧
    (p.h - bdsK ≤ i → st.thNode i = List.replicate p.n 0 ∧ st.thH i = 0 ∧
      st.thNextIdx i = 0 ∧ st.thStackUsage i = 0 ∧ st.thCompleted i = 0)) ∧
  (∀ i, (i < retainCount bdsK → (st.retain i).length = p.n) ∧
    (retainCount bdsK ≤ i → st.retain i = List.replicate p.n 0)) ∧
  st.nextLeaf < 2 ^ 32

/-- The all-zero BDS state (`memset 0`). -/
def bdsStateZero (p : Params) : BdsState :=
  { auth := fun _ => List.replicate p.n 0, keep := fun _ => List.replicate p.n 0
  , stack := fun _ => List.replicate p.n 0, stackLevels := fun _ => 0
  , stackOffset := 0, thNode := fun _ => List.replicate p.n 0
  , thH := fun _ => 0, thNextIdx := fun _ => 0, thStackUsage := fun _ => 0
  , thCompleted := fun _ => 0, retain := fun _ => List.replicate p.n 0
  , nextLeaf := 0 }

theorem bdsState_fields_eq (a b : BdsState)
    (h1 : a.auth = b.auth) (h2 : a.keep = b.keep) (h3 : a.stack = b.stack)
    (h4 : a.stackLevels = b.stackLevels) (h5 : a.stackOffset = b.stackOffset)
    (h6 : a.thNode = b.thNode) (h7 : a.thH = b.thH)
    (h8 : a.thNextIdx = b.thNextIdx) (h9 : a.thStackUsage = b.thStackUsage)
    (h10 : a.thCompleted = b.thCompleted) (h11 : a.retain = b.retain)
    (h12 : a.nextLeaf = b.nextLeaf) : a = b := by
  cases a
  cases b
  simp only at h1 h2 h3 h4 h5 h6 h7 h8 h9 h10 h11 h12
  subst h1 h2 h3 h4 h5 h6 h7 h8 h9 h10 h11 h12
  rfl

/-- Drop to the start of the `j`-th entry of a uniform-width section. -/
theorem drop_flatten_uniform {m : Nat} :
    ∀ (nodes : List (List Nat)) (rest : List Nat) (j : Nat),
      (∀ x ∈ nodes, x.length = m) → j < nodes.length →
      (nodes.flatten ++ rest).drop (j * m) =
        nodes.getD j [] ++ ((nodes.drop (j + 1)).flatten ++ rest) := by
  intro nodes
  induction nodes with
  | nil => intro rest j _ hj; simp at hj
  | cons x xs ih =>
      intro rest j hu hj
      cases j with
      | zero => simp [List.flatten_cons, List.append_assoc]
      | succ k =>
          have hx : x.length = m := hu x (by simp)
          rw [List.flatten_cons, List.append_assoc]
          rw [show (k + 1) * m = x.length + k * m from by rw [hx]; ring]
          rw [List.drop_append]
          rw [ih rest k (fun y hy => hu y (by simp [hy])) (by simpa using hj)]
          simp

/-- Read inside the `j`-th entry of a uniform-width section. -/
theorem segment_flatten_inner {m : Nat} (nodes : List (List Nat))
    (rest : List Nat) (hu : ∀ x ∈ nodes, x.length = m) (j : Nat)
    (hj : j < nodes.length) (inner len : Nat) (hil : inner + len ≤ m) :
    segment (nodes.flatten ++ rest) (j * m + inner) len =
      segment (nodes.getD j []) inner len := by
  have hglen : (nodes.getD j []).length = m := by
    rw [List.getD_eq_getElem _ _ hj]
    exact hu _ (List.getElem_mem hj)
  unfold segment
  rw [← List.drop_drop, drop_flatten_uniform nodes rest j hu hj]
  rw [List.drop_append_eq_append_drop]
  rw [show inner - (nodes.getD j []).length = 0 from by rw [hglen]; omega,
    List.drop_zero]
  rw [List.take_append_eq_append_take]
  rw [show len - ((nodes.getD j []).drop inner).length = 0 from by
    rw [List.length_drop, hglen]; omega]
  rw [List.take_zero, List.append_nil]

/-- Read one byte inside the `j`-th entry of a uniform-width section. -/
theorem getD_flatten_inner {m : Nat} (nodes : List (List Nat))
    (rest : List Nat) (hu : ∀ x ∈ nodes, x.length = m) (j : Nat)
    (hj : j < nodes.length) (inner : Nat) (hi : inner < m) (d : Nat) :
    (nodes.flatten ++ rest).getD (j * m + inner) d =
      (nodes.getD j []).getD inner d := by
  have hglen : (nodes.getD j []).length = m := by
    rw [List.getD_eq_getElem _ _ hj]
    exact hu _ (List.getElem_mem hj)
  have hd := drop_flatten_uniform nodes rest j hu hj
  rw [List.getD_eq_getElem?_getD, ← List.getElem?_drop, hd]
  rw [List.getElem?_append]
  rw [if_pos (show inner < (nodes.getD j []).length from by
    rw [hglen]; exact hi)]
  rw [← List.getD_eq_getElem?_getD]

/-- Skip a prefix of known length when reading a segment. -/
theorem segment_shift (A B : List Nat) (off0 LA off len : Nat)
    (hA : A.length = LA) (hoff : off0 = LA + off) :
    segment (A ++ B) off0 len = segment B off len := by
  unfold segment
  rw [hoff, ← List.drop_drop, drop_append_len0 _ _ hA]

/-- Skip a prefix of known length when reading one byte. -/
theorem getD_shift (A B : List Nat) (off0 LA off d : Nat)
    (hA : A.length = LA) (hoff : off0 = LA + off) :
    (A ++ B).getD off0 d = B.getD off d := by
  rw [hoff, List.getD_eq_getElem?_getD,
    List.getElem?_append_right (by omega : A.length ≤ LA + off), hA]
  rw [show LA + off - LA = off from by omega]
  rw [← List.getD_eq_getElem?_getD]

/-- Reading a segment at offset 0 is a take. -/
theorem segment_zero (l : List Nat) (len : Nat) : segment l 0 len = l.take len := by
  unfold segment
  rw [List.drop_zero]

/-- C8: serialising a BDS state and deserialising it back reproduces the
state exactly; the serialised buffer is `xmss_bds_serialized_size` bytes
and deserialisation never reads beyond that size (any trailing bytes are
ignored).  `bdsStateWF` states exactly what a C `xmss_bds_state` value can
hold, so this covers every reachable state. -/
theorem bds_serialize_roundtrip (p : Params) (st : BdsState) (bdsK : Nat)
    (junk : List Nat) (hwf : bdsStateWF p st bdsK) :
    (xmssBdsSerialize p st bdsK).length = xmssBdsSerializedSize p bdsK ∧
    xmssBdsDeserialize p (xmssBdsSerialize p st bdsK ++ junk) bdsK = st := by
  obtain ⟨wfA, wfK, wfS, wfL, wfO, wfT, wfR, wfN⟩ := hwf
  have huA : ∀ x ∈ (List.range p.h).map st.auth, x.length = p.n := by
    intro x hx
    obtain ⟨i, hi, rfl⟩ := List.mem_map.mp hx
    exact (wfA i).1 (List.mem_range.mp hi)
  have huK : ∀ x ∈ (List.range (p.h / 2)).map st.keep, x.length = p.n := by
    intro x hx
    obtain ⟨i, hi, rfl⟩ := List.mem_map.mp hx
    exact (wfK i).1 (List.mem_range.mp hi)
  have huS : ∀ x ∈ (List.range (p.h + 1)).map st.stack, x.length = p.n := by
    intro x hx
    obtain ⟨i, hi, rfl⟩ := List.mem_map.mp hx
    exact (wfS i).1 (List.mem_range.mp hi)
  have huT : ∀ x ∈ (List.range (p.h - bdsK)).map (thInstBytes st),
      x.length = p.n + 10 := by
    intro x hx
    obtain ⟨i, hi, rfl⟩ := List.mem_map.mp hx
    have hn := ((wfT i).1 (List.mem_range.mp hi)).1
    simp [thInstBytes, hn, ullToBytes_length]
  have huR : ∀ x ∈ (List.range (retainCount bdsK)).map st.retain,
      x.length = p.n := by
    intro x hx
    obtain ⟨i, hi, rfl⟩ := List.mem_map.mp hx
    exact (wfR i).1 (List.mem_range.mp hi)
  have hL1 : (((List.range p.h).map st.auth).flatten).length = p.h * p.n := by
    rw [flatten_length_uniform _ huA]
    simp
  have hL2 : (((List.range (p.h / 2)).map st.keep).flatten).length = (p.h / 2) * p.n := by
    rw [flatten_length_uniform _ huK]
    simp
  have hL3 : (((List.range (p.h + 1)).map st.stack).flatten).length = (p.h + 1) * p.n := by
    rw [flatten_length_uniform _ huS]
    simp
  have hL4 : ((List.range (p.h + 1)).map st.stackLevels).length = p.h + 1 := by simp
  have hL6 : (((List.range (p.h - bdsK)).map (thInstBytes st)).flatten).length = (p.h - bdsK) * (p.n + 10) := by
    rw [flatten_length_uniform _ huT]
    simp
  have hL7 : (((List.range (retainCount bdsK)).map st.retain).flatten).length = retainCount bdsK * p.n := by
    rw [flatten_length_uniform _ huR]
    simp
  constructor
  · unfold xmssBdsSerialize xmssBdsSerializedSize
    simp only [List.length_append]
    rw [hL1, hL2, hL3, hL4, hL6, hL7, ullToBytes_length, ullToBytes_length]
    ring
  · have hBUF : xmssBdsSerialize p st bdsK ++ junk = ((List.range p.h).map st.auth).flatten ++ (((List.range (p.h / 2)).map st.keep).flatten ++ (((List.range (p.h + 1)).map st.stack).flatten ++ ((List.range (p.h + 1)).map st.stackLevels ++ (ullToBytes 4 st.stackOffset ++ (((List.range (p.h - bdsK)).map (thInstBytes st)).flatten ++ (((List.range (retainCount bdsK)).map st.retain).flatten ++ (ullToBytes 4 st.nextLeaf ++ junk))))))) := by
      simp [xmssBdsSerialize, List.append_assoc]
    have sh2 : ∀ off len, segment (((List.range p.h).map st.auth).flatten ++ (((List.range (p.h / 2)).map st.keep).flatten ++ (((List.range (p.h + 1)).map st.stack).flatten ++ ((List.range (p.h + 1)).map st.stackLevels ++ (ullToBytes 4 st.stackOffset ++ (((List.range (p.h - bdsK)).map (thInstBytes st)).flatten ++ (((List.range (retainCount bdsK)).map st.retain).flatten ++ (ullToBytes 4 st.nextLeaf ++ junk)))))))) (p.h * p.n + off) len =
        segment (((List.range (p.h / 2)).map st.keep).flatten ++ (((List.range (p.h + 1)).map st.stack).flatten ++ ((List.range (p.h + 1)).map st.stackLevels ++ (ullToBytes 4 st.stackOffset ++ (((List.range (p.h - bdsK)).map (thInstBytes st)).flatten ++ (((List.range (retainCount bdsK)).map st.retain).flatten ++ (ullToBytes 4 st.nextLeaf ++ junk))))))) off len :=
      fun off len => segment_shift _ _ _ _ off len hL1 rfl
    have sh3 : ∀ off len, segment (((List.range p.h).map st.auth).flatten ++ (((List.range (p.h / 2)).map st.keep).flatten ++ (((List.range (p.h + 1)).map st.stack).flatten ++ ((List.range (p.h + 1)).map st.stackLevels ++ (ullToBytes 4 st.stackOffset ++ (((List.range (p.h - bdsK)).map (thInstBytes st)).flatten ++ (((List.range (retainCount bdsK)).map st.retain).flatten ++ (ullToBytes 4 st.nextLeaf ++ junk)))))))) (p.h * p.n + (p.h / 2) * p.n + off) len =
        segment (((List.range (p.h + 1)).map st.stack).flatten ++ ((List.range (p.h + 1)).map st.stackLevels ++ (ullToBytes 4 st.stackOffset ++ (((List.range (p.h - bdsK)).map (thInstBytes st)).flatten ++ (((List.range (retainCount bdsK)).map st.retain).flatten ++ (ullToBytes 4 st.nextLeaf ++ junk)))))) off len := by
      intro off len
      rw [show p.h * p.n + (p.h / 2) * p.n + off = p.h * p.n + ((p.h / 2) * p.n + off) from by omega, sh2]
      exact segment_shift _ _ _ _ off len hL2 rfl
    have sh4 : ∀ off len, segment (((List.range p.h).map st.auth).flatten ++ (((List.range (p.h / 2)).map st.keep).flatten ++ (((List.range (p.h + 1)).map st.stack).flatten ++ ((List.range (p.h + 1)).map st.stackLevels ++ (ullToBytes 4 st.stackOffset ++ (((List.range (p.h - bdsK)).map (thInstBytes st)).flatten ++ (((List.range (retainCount bdsK)).map st.retain).flatten ++ (ullToBytes 4 st.nextLeaf ++ junk)))))))) (p.h * p.n + (p.h / 2) * p.n + (p.h + 1) * p.n + off) len =
        segment ((List.range (p.h + 1)).map st.stackLevels ++ (ullToBytes 4 st.stackOffset ++ (((List.range (p.h - bdsK)).map (thInstBytes st)).flatten ++ (((List.range (retainCount bdsK)).map st.retain).flatten ++ (ullToBytes 4 st.nextLeaf ++ junk))))) off len := by
      intro off len
      rw [show p.h * p.n + (p.h / 2) * p.n + (p.h + 1) * p.n + off = p.h * p.n + (p.h / 2) * p.n + ((p.h + 1) * p.n + off) from by omega, sh3]
      exact segment_shift _ _ _ _ off len hL3 rfl
    have sh5 : ∀ off len, segment (((List.range p.h).map st.auth).flatten ++ (((List.range (p.h / 2)).map st.keep).flatten ++ (((List.range (p.h + 1)).map st.stack).flatten ++ ((List.range (p.h + 1)).map st.stackLevels ++ (ullToBytes 4 st.stackOffset ++ (((List.range (p.h - bdsK)).map (thInstBytes st)).flatten ++ (((List.range (retainCount bdsK)).map st.retain).flatten ++ (ullToBytes 4 st.nextLeaf ++ junk)))))))) (p.h * p.n + (p.h / 2) * p.n + (p.h + 1) * p.n + (p.h + 1) + off) len =
        segment (ullToBytes 4 st.stackOffset ++ (((List.range (p.h - bdsK)).map (thInstBytes st)).flatten ++ (((List.range (retainCount bdsK)).map st.retain).flatten ++ (ullToBytes 4 st.nextLeaf ++ junk)))) off len := by
      intro off len
      rw [show p.h * p.n + (p.h / 2) * p.n + (p.h + 1) * p.n + (p.h + 1) + off = p.h * p.n + (p.h / 2) * p.n + (p.h + 1) * p.n + ((p.h + 1) + off) from by omega, sh4]
      exact segment_shift _ _ _ _ off len hL4 rfl
    have sh6 : ∀ off len, segment (((List.range p.h).map st.auth).flatten ++ (((List.range (p.h / 2)).map st.keep).flatten ++ (((List.range (p.h + 1)).map st.stack).flatten ++ ((List.range (p.h + 1)).map st.stackLevels ++ (ullToBytes 4 st.stackOffset ++ (((List.range (p.h - bdsK)).map (thInstBytes st)).flatten ++ (((List.range (retainCount bdsK)).map st.retain).flatten ++ (ullToBytes 4 st.nextLeaf ++ junk)))))))) (p.h * p.n + (p.h / 2) * p.n + (p.h + 1) * p.n + (p.h + 1) + 4 + off) len =
        segment (((List.range (p.h - bdsK)).map (thInstBytes st)).flatten ++ (((List.range (retainCount bdsK)).map st.retain).flatten ++ (ullToBytes 4 st.nextLeaf ++ junk))) off len := by
      intro off len
      rw [show p.h * p.n + (p.h / 2) * p.n + (p.h + 1) * p.n + (p.h + 1) + 4 + off = p.h * p.n + (p.h / 2) * p.n + (p.h + 1) * p.n + (p.h + 1) + (4 + off) from by omega, sh5]
      exact segment_shift _ _ _ _ off len (ullToBytes_length 4 _) rfl
    have sh7 : ∀ off len, segment (((List.range p.h).map st.auth).flatten ++ (((List.range (p.h / 2)).map st.keep).flatten ++ (((List.range (p.h + 1)).map st.stack).flatten ++ ((List.range (p.h + 1)).map st.stackLevels ++ (ullToBytes 4 st.stackOffset ++ (((List.range (p.h - bdsK)).map (thInstBytes st)).flatten ++ (((List.range (retainCount bdsK)).map st.retain).flatten ++ (ullToBytes 4 st.nextLeaf ++ junk)))))))) (p.h * p.n + (p.h / 2) * p.n + (p.h + 1) * p.n + (p.h + 1) + 4 + (p.h - bdsK) * (p.n + 10) + off) len =
        segment (((List.range (retainCount bdsK)).map st.retain).flatten ++ (ullToBytes 4 st.nextLeaf ++ junk)) off len := by
      intro off len
      rw [show p.h * p.n + (p.h / 2) * p.n + (p.h + 1) * p.n + (p.h + 1) + 4 + (p.h - bdsK) * (p.n + 10) + off = p.h * p.n + (p.h / 2) * p.n + (p.h + 1) * p.n + (p.h + 1) + 4 + ((p.h - bdsK) * (p.n + 10) + off)
        from by omega, sh6]
      exact segment_shift _ _ _ _ off len hL6 rfl
    have gd4 : ∀ off d, (((List.range p.h).map st.auth).flatten ++ (((List.range (p.h / 2)).map st.keep).flatten ++ (((List.range (p.h + 1)).map st.stack).flatten ++ ((List.range (p.h + 1)).map st.stackLevels ++ (ullToBytes 4 st.stackOffset ++ (((List.range (p.h - bdsK)).map (thInstBytes st)).flatten ++ (((List.range (retainCount bdsK)).map st.retain).flatten ++ (ullToBytes 4 st.nextLeaf ++ junk)))))))).getD (p.h * p.n + (p.h / 2) * p.n + (p.h + 1) * p.n + off) d = (((List.range (p.h + 1)).map st.stackLevels ++ (ullToBytes 4 st.stackOffset ++ (((List.range (p.h - bdsK)).map (thInstBytes st)).flatten ++ (((List.range (retainCount bdsK)).map st.retain).flatten ++ (ullToBytes 4 st.nextLeaf ++ junk)))))).getD off d := by
      intro off d
      rw [getD_shift _ _ _ _ ((p.h / 2) * p.n + ((p.h + 1) * p.n + off)) d hL1
        (by omega)]
      rw [getD_shift _ _ _ _ ((p.h + 1) * p.n + off) d hL2 (by omega)]
      rw [getD_shift _ _ _ _ off d hL3 (by omega)]
    have gd6 : ∀ off d, (((List.range p.h).map st.auth).flatten ++ (((List.range (p.h / 2)).map st.keep).flatten ++ (((List.range (p.h + 1)).map st.stack).flatten ++ ((List.range (p.h + 1)).map st.stackLevels ++ (ullToBytes 4 st.stackOffset ++ (((List.range (p.h - bdsK)).map (thInstBytes st)).flatten ++ (((List.range (retainCount bdsK)).map st.retain).flatten ++ (ullToBytes 4 st.nextLeaf ++ junk)))))))).getD (p.h * p.n + (p.h / 2) * p.n + (p.h + 1) * p.n + (p.h + 1) + 4 + off) d = ((((List.range (p.h - bdsK)).map (thInstBytes st)).flatten ++ (((List.range (retainCount bdsK)).map st.retain).flatten ++ (ullToBytes 4 st.nextLeaf ++ junk)))).getD off d := by
      intro off d
      rw [getD_shift _ _ _ _ ((p.h / 2) * p.n + ((p.h + 1) * p.n +
        ((p.h + 1) + (4 + off)))) d hL1 (by omega)]
      rw [getD_shift _ _ _ _ ((p.h + 1) * p.n + ((p.h + 1) + (4 + off))) d hL2
        (by omega)]
      rw [getD_shift _ _ _ _ ((p.h + 1) + (4 + off)) d hL3 (by omega)]
      rw [getD_shift _ _ _ _ (4 + off) d hL4 (by omega)]
      rw [getD_shift _ _ _ _ off d (ullToBytes_length 4 _) (by omega)]
    have hthGet : ∀ i, i < p.h - bdsK →
        ((List.range (p.h - bdsK)).map (thInstBytes st)).getD i [] =
          thInstBytes st i := by
      intro i hi
      rw [mapRange_getD, if_pos hi]
    apply bdsState_fields_eq
    · funext i
      simp only [xmssBdsDeserialize]
      rw [hBUF]
      by_cases hi : i < p.h
      · rw [if_pos hi]
        rw [segment_flatten _ _ huA i (by simpa using hi)]
        rw [mapRange_getD, if_pos hi]
      · rw [if_neg hi]
        exact ((wfA i).2 (by omega)).symm
    · funext i
      simp only [xmssBdsDeserialize]
      rw [hBUF]
      by_cases hi : i < p.h / 2
      · rw [if_pos hi, sh2 (i * p.n) p.n]
        rw [segment_flatten _ _ huK i (by simpa using hi)]
        rw [mapRange_getD, if_pos hi]
      · rw [if_neg hi]
        exact ((wfK i).2 (by omega)).symm
    · funext i
      simp only [xmssBdsDeserialize]
      rw [hBUF]
      by_cases hi : i < p.h + 1
      · rw [if_pos hi, sh3 (i * p.n) p.n]
        rw [segment_flatten _ _ huS i (by simpa using hi)]
        rw [mapRange_getD, if_pos hi]
      · rw [if_neg hi]
        exact ((wfS i).2 (by omega)).symm
    · funext i
      simp only [xmssBdsDeserialize]
      rw [hBUF]
      by_cases hi : i < p.h + 1
      · rw [if_pos hi, gd4 i 0]
        rw [List.getD_append _ _ _ _ (by rw [hL4]; omega)]
        rw [mapRange_getD, if_pos hi]
      · rw [if_neg hi]
        exact ((wfL i).2 (by omega)).symm
    · simp only [xmssBdsDeserialize]
      rw [hBUF]
      rw [sh4 (p.h + 1) 4]
      rw [segment_shift _ _ _ _ 0 4 hL4 (by omega)]
      rw [segment_zero, take_append_len _ _ (ullToBytes_length 4 _)]
      exact bytesToUll_ullToBytes_of_lt wfO
    · funext i
      simp only [xmssBdsDeserialize]
      rw [hBUF]
      by_cases hi : i < p.h - bdsK
      · rw [if_pos hi]
        rw [show p.h * p.n + (p.h / 2) * p.n + (p.h + 1) * p.n + (p.h + 1) + 4 + i * (p.n + 10) = p.h * p.n + (p.h / 2) * p.n + (p.h + 1) * p.n + (p.h + 1) + 4 + (i * (p.n + 10) + 0)
          from by omega]
        rw [sh6 (i * (p.n + 10) + 0) p.n]
        rw [segment_flatten_inner _ _ huT i (by simpa using hi) 0 p.n
          (by omega)]
        rw [hthGet i hi]
        rw [show thInstBytes st i = st.thNode i ++ (ullToBytes 4 (st.thH i) ++
          (ullToBytes 4 (st.thNextIdx i) ++ ([st.thStackUsage i] ++
          [st.thCompleted i]))) from by simp [thInstBytes, List.append_assoc]]
        rw [segment_zero, List.take_append_eq_append_take]
        rw [show p.n - (st.thNode i).length = 0 from by
          rw [((wfT i).1 hi).1]; omega]
        rw [List.take_zero, List.append_nil]
        exact take_self_len _ ((wfT i).1 hi).1
      · rw [if_neg hi]
        exact (((wfT i).2 (by omega)).1).symm
    · funext i
      simp only [xmssBdsDeserialize]
      rw [hBUF]
      by_cases hi : i < p.h - bdsK
      · rw [if_pos hi]
        rw [show p.h * p.n + (p.h / 2) * p.n + (p.h + 1) * p.n + (p.h + 1) + 4 + i * (p.n + 10) + p.n = p.h * p.n + (p.h / 2) * p.n + (p.h + 1) * p.n + (p.h + 1) + 4 + (i * (p.n + 10) + p.n)
          from by omega]
        rw [sh6 (i * (p.n + 10) + p.n) 4]
        rw [segment_flatten_inner _ _ huT i (by simpa using hi) p.n 4
          (by omega)]
        rw [hthGet i hi]
        rw [show thInstBytes st i = st.thNode i ++ (ullToBytes 4 (st.thH i) ++
          (ullToBytes 4 (st.thNextIdx i) ++ ([st.thStackUsage i] ++
          [st.thCompleted i]))) from by simp [thInstBytes, List.append_assoc]]
        rw [segment_shift _ _ _ _ 0 4 ((wfT i).1 hi).1 (by omega)]
        rw [segment_zero, take_append_len _ _ (ullToBytes_length 4 _)]
        exact bytesToUll_ullToBytes_of_lt ((wfT i).1 hi).2.1
      · rw [if_neg hi]
        exact (((wfT i).2 (by omega)).2.1).symm
    · funext i
      simp only [xmssBdsDeserialize]
      rw [hBUF]
      by_cases hi : i < p.h - bdsK
      · rw [if_pos hi]
        rw [show p.h * p.n + (p.h / 2) * p.n + (p.h + 1) * p.n + (p.h + 1) + 4 + i * (p.n + 10) + p.n + 4 = p.h * p.n + (p.h / 2) * p.n + (p.h + 1) * p.n + (p.h + 1) + 4 +
          (i * (p.n + 10) + (p.n + 4)) from by omega]
        rw [sh6 (i * (p.n + 10) + (p.n + 4)) 4]
        rw [segment_flatten_inner _ _ huT i (by simpa using hi) (p.n + 4) 4
          (by omega)]
        rw [hthGet i hi]
        rw [show thInstBytes st i = st.thNode i ++ (ullToBytes 4 (st.thH i) ++
          (ullToBytes 4 (st.thNextIdx i) ++ ([st.thStackUsage i] ++
          [st.thCompleted i]))) from by simp [thInstBytes, List.append_assoc]]
        rw [segment_shift _ _ _ _ 4 4 ((wfT i).1 hi).1 (by omega)]
        rw [segment_shift _ _ _ _ 0 4 (ullToBytes_length 4 _) (by omega)]
        rw [segment_zero, take_append_len _ _ (ullToBytes_length 4 _)]
        exact bytesToUll_ullToBytes_of_lt ((wfT i).1 hi).2.2.1
      · rw [if_neg hi]
        exact (((wfT i).2 (by omega)).2.2.1).symm
    · funext i
      simp only [xmssBdsDeserialize]
      rw [hBUF]
      by_cases hi : i < p.h - bdsK
      · rw [if_pos hi]
        rw [show p.h * p.n + (p.h / 2) * p.n + (p.h + 1) * p.n + (p.h + 1) + 4 + i * (p.n + 10) + p.n + 8 = p.h * p.n + (p.h / 2) * p.n + (p.h + 1) * p.n + (p.h + 1) + 4 +
          (i * (p.n + 10) + (p.n + 8)) from by omega]
        rw [gd6 (i * (p.n + 10) + (p.n + 8)) 0]
        rw [getD_flatten_inner _ _ huT i (by simpa using hi) (p.n + 8)
          (by omega) 0]
        rw [hthGet i hi]
        rw [show thInstBytes st i = st.thNode i ++ (ullToBytes 4 (st.thH i) ++
          (ullToBytes 4 (st.thNextIdx i) ++ ([st.thStackUsage i] ++
          [st.thCompleted i]))) from by simp [thInstBytes, List.append_assoc]]
        rw [getD_shift _ _ _ _ 8 0 ((wfT i).1 hi).1 (by omega)]
        rw [getD_shift _ _ _ _ 4 0 (ullToBytes_length 4 _) (by omega)]
        rw [getD_shift _ _ _ _ 0 0 (ullToBytes_length 4 _) (by omega)]
        rfl
      · rw [if_neg hi]
        exact (((wfT i).2 (by omega)).2.2.2.1).symm
    · funext i
      simp only [xmssBdsDeserialize]
      rw [hBUF]
      by_cases hi : i < p.h - bdsK
      · rw [if_pos hi]
        rw [show p.h * p.n + (p.h / 2) * p.n + (p.h + 1) * p.n + (p.h + 1) + 4 + i * (p.n + 10) + p.n + 9 = p.h * p.n + (p.h / 2) * p.n + (p.h + 1) * p.n + (p.h + 1) + 4 +
          (i * (p.n + 10) + (p.n + 9)) from by omega]
        rw [gd6 (i * (p.n + 10) + (p.n + 9)) 0]
        rw [getD_flatten_inner _ _ huT i (by simpa using hi) (p.n + 9)
          (by omega) 0]
        rw [hthGet i hi]
        rw [show thInstBytes st i = st.thNode i ++ (ullToBytes 4 (st.thH i) ++
          (ullToBytes 4 (st.thNextIdx i) ++ ([st.thStackUsage i] ++
          [st.thCompleted i]))) from by simp [thInstBytes, List.append_assoc]]
        rw [getD_shift _ _ _ _ 9 0 ((wfT i).1 hi).1 (by omega)]
        rw [getD_shift _ _ _ _ 5 0 (ullToBytes_length 4 _) (by omega)]
        rw [getD_shift _ _ _ _ 1 0 (ullToBytes_length 4 _) (by omega)]
        rfl
      · rw [if_neg hi]
        exact (((wfT i).2 (by omega)).2.2.2.2).symm
    · funext i
      simp only [xmssBdsDeserialize]
      rw [hBUF]
      by_cases hi : i < retainCount bdsK
      · rw [if_pos hi]
        rw [show p.h * p.n + (p.h / 2) * p.n + (p.h + 1) * p.n + (p.h + 1) + 4 + (p.h - bdsK) * (p.n + 10) + i * p.n = p.h * p.n + (p.h / 2) * p.n + (p.h + 1) * p.n + (p.h + 1) + 4 + (p.h - bdsK) * (p.n + 10) + (i * p.n + 0) from by omega]
        rw [sh7 (i * p.n + 0) p.n]
        rw [show i * p.n + 0 = i * p.n from by omega]
        rw [segment_flatten _ _ huR i (by simpa using hi)]
        rw [mapRange_getD, if_pos hi]
      · rw [if_neg hi]
        exact ((wfR i).2 (by omega)).symm
    · simp only [xmssBdsDeserialize]
      rw [hBUF]
      rw [sh7 (retainCount bdsK * p.n) 4]
      rw [segment_shift _ _ _ _ 0 4 hL7 (by omega)]
      rw [segment_zero, take_append_len _ _ (ullToBytes_length 4 _)]
      exact bytesToUll_ullToBytes_of_lt wfN

/-- Witness for C8: the zeroed BDS state at XMSS-SHA2_10_256 with
`bds_k = 0` round-trips. -/
theorem bds_serialize_roundtrip_witness :
    (xmssBdsSerialize pC1 (bdsStateZero pC1) 0).length =
      xmssBdsSerializedSize pC1 0 ∧
    xmssBdsDeserialize pC1
      (xmssBdsSerialize pC1 (bdsStateZero pC1) 0 ++ []) 0 =
      bdsStateZero pC1 :=
  bds_serialize_roundtrip pC1 (bdsStateZero pC1) 0 []
    ⟨fun _ => ⟨fun _ => by simp [bdsStateZero], fun _ => rfl⟩,
     fun _ => ⟨fun _ => by simp [bdsStateZero], fun _ => rfl⟩,
     fun _ => ⟨fun _ => by simp [bdsStateZero], fun _ => rfl⟩,
     fun _ => ⟨fun _ => by norm_num [bdsStateZero], fun _ => rfl⟩,
     by norm_num [bdsStateZero],
     fun _ => ⟨fun _ => ⟨by simp [bdsStateZero],
        by norm_num [bdsStateZero], by norm_num [bdsStateZero],
        by norm_num [bdsStateZero], by norm_num [bdsStateZero]⟩,
       fun _ => ⟨rfl, rfl, rfl, rfl, rfl⟩⟩,
     fun _ => ⟨fun _ => by simp [bdsStateZero], fun _ => rfl⟩,
     by norm_num [bdsStateZero]⟩

/-- Witness for C3 at XMSS-SHA2_10_256: the auth entry at height
tree_height stays zero. -/
theorem bds_treehash_init_tree_height_witness :
    (bdsTreehashInit pC1 hfConst32 [] [] Adrs.zero pC1.treeHeight 0).2.auth
      pC1.treeHeight = List.replicate pC1.n 0 :=
  ((bds_treehash_init_tree_height pC1 hfConst32 [] [] Adrs.zero 0).2.1
    pC1.treeHeight le_rfl).1

end XMSS
